import Mathlib

/-!
# Node decommissioning: controller side (`pkg/controllers/management/node/cleanup.go`)
# and agent side (`pkg/agent/clean/node_windows.go`)

A shallow embedding of the node-removal code.  Calls to collaborators (the
control-plane client, the drain tool, the container engine, the host helper)
are answered by an explicit environment, and every function returns, next to
its Go result, the list of calls it issued, in order.
-/

set_option autoImplicit false

/-! ## Go strings and maps -/

namespace strings

/-- Go `strings.HasPrefix(s, p)`: `p` is an initial segment of `s`. -/
def HasPrefix (s p : String) : Bool :=
  p.data.isPrefixOf s.data

end strings

/-- A Go `map[string]string` that is not nil: its bindings, one per key. -/
structure GoMap where
  entries : List (String × String)
  nodupKeys : (entries.map Prod.fst).Nodup

namespace GoMap

/-- Go `make(map[string]string)`. -/
def empty : GoMap :=
  ⟨[], List.nodup_nil⟩

/-- Go `m[k]` with the presence flag: the value bound to `k`, if any. -/
def get (m : GoMap) (k : String) : Option String :=
  (m.entries.find? (fun e => e.1 = k)).map Prod.snd

/-- Go `len(m)`. -/
def len (m : GoMap) : Nat :=
  m.entries.length

/-- The keys `for k := range m` visits (in the order of the representation). -/
def keys (m : GoMap) : List String :=
  m.entries.map Prod.fst

/-- Go `delete(m, k)`: drops the binding of `k`; nothing happens when `k` is unbound. -/
def delete (m : GoMap) (k : String) : GoMap :=
  ⟨m.entries.filter (fun e => e.1 ≠ k),
    m.nodupKeys.sublist ((List.filter_sublist m.entries).map Prod.fst)⟩

/-- Go `m[k] = v`: binds `k` to `v`, replacing an earlier binding of `k`. -/
def set (m : GoMap) (k v : String) : GoMap :=
  ⟨(k, v) :: (m.delete k).entries, by
    rw [List.map_cons, List.nodup_cons]
    refine ⟨?_, (m.delete k).nodupKeys⟩
    intro hk
    obtain ⟨e, he, hek⟩ := List.mem_map.1 hk
    have h := (List.mem_filter.1 he).2
    simp at h
    exact h hek⟩

/-- The map holding the given bindings, written in order (a later binding of a key wins). -/
def ofList (l : List (String × String)) : GoMap :=
  l.foldl (fun m e => m.set e.1 e.2) empty

end GoMap

/-! ## `k8s.io/apimachinery/pkg/util/wait` -/

/-- A Go `error` value, as far as the controller looks at it: its text and
whether `kerror.IsNotFound` holds of it. -/
structure Error where
  msg : String
  notFound : Bool
  deriving DecidableEq, Repr

/-- The value of `ctx.Err()` once it is not nil. -/
inductive CtxErr where
  | Canceled
  | DeadlineExceeded
  deriving DecidableEq, Repr

namespace kerror

/-- Go `kerror.IsNotFound(err)`; false on a nil error. -/
def IsNotFound (err : Option Error) : Bool :=
  match err with
  | none => false
  | some e => e.notFound

end kerror

namespace wait

/-- Go `wait.Backoff`; durations in seconds. -/
structure Backoff where
  Duration : Nat
  Factor : Nat
  Jitter : Nat
  Steps : Nat
  deriving DecidableEq, Repr

/-- Go `wait.ErrWaitTimeout`. -/
def ErrWaitTimeout : Error :=
  ⟨"timed out waiting for the condition", false⟩

/-- The loop of `wait.ExponentialBackoff` with `steps` steps left. -/
def backoffLoop {σ : Type} (condition : σ → (Bool × Option Error) × σ) :
    Nat → σ → Option Error × σ
  | 0, s => (some ErrWaitTimeout, s)
  | n + 1, s =>
    match condition s with
    | ((ok, err), s1) =>
      if err.isSome || ok then (err, s1)
      else if n + 1 = 1 then (some ErrWaitTimeout, s1)
      else backoffLoop condition n s1

/-- Upstream `wait.ExponentialBackoff(backoff, condition)` as its documentation
gives it: the condition is run until it reports true or an error, at most
`backoff.Steps` times, sleeping in between; when the steps run out without the
condition reporting true the result is `ErrWaitTimeout`.  The condition acts on
a state `σ`, here the log of the calls issued. -/
def ExponentialBackoff {σ : Type} (backoff : Backoff)
    (condition : σ → (Bool × Option Error) × σ) (s : σ) : Option Error × σ :=
  backoffLoop condition backoff.Steps s

end wait

/-! ## The controller: `pkg/controllers/management/node` -/

namespace node

/-- Go `rketypes.NodeDrainInput`. -/
structure NodeDrainInput where
  Force : Bool
  DeleteLocalData : Bool
  GracePeriod : Int
  Timeout : Int
  deriving DecidableEq, Repr

/-- Go `coreV1.Taint`, the fields the controller reads. -/
structure Taint where
  Key : String
  Value : String
  Effect : String
  deriving DecidableEq, Repr

/-- Go `coreV1.Toleration`, the fields the controller writes. -/
structure Toleration where
  Key : String
  Operator : String
  Effect : String
  deriving DecidableEq, Repr

/-- Go `coreV1.NodeSpec` (`node.Spec.InternalNodeSpec`). -/
structure InternalNodeSpec where
  Taints : List Taint
  deriving DecidableEq, Repr

/-- Go `v3.NodeSpec`. -/
structure NodeSpec where
  NodePoolName : String
  RequestedHostname : String
  NodeDrainInput : Option NodeDrainInput
  InternalNodeSpec : InternalNodeSpec
  deriving DecidableEq, Repr

/-- Go `v3.NodeStatus`. -/
structure NodeStatus where
  NodeName : String
  NodeLabels : Option GoMap

/-- Go `v3.Node`: the object metadata the controller touches, spec and status.
`Annotations = none` is the nil map. -/
structure Node where
  Name : String
  Namespace : String
  Finalizers : List String
  Annotations : Option GoMap
  Spec : NodeSpec
  Status : NodeStatus

/-- Go `rketypes.RancherKubernetesEngineConfig`, the two path settings. -/
structure RancherKubernetesEngineConfig where
  PrefixPath : String
  WindowsPrefixPath : String
  deriving DecidableEq, Repr

/-- Go `v3.Cluster` behind the pointer `clusterLister.Get` returns;
`Spec.RancherKubernetesEngineConfig` is itself a pointer, `none` when nil. -/
structure Cluster where
  Name : String
  RancherKubernetesEngineConfig : Option RancherKubernetesEngineConfig
  deriving DecidableEq, Repr

/-- Go `coreV1.EnvVar`. -/
structure EnvVar where
  Name : String
  Value : String
  deriving DecidableEq, Repr

/-- Go `coreV1.Volume` with a host-path source. -/
structure Volume where
  Name : String
  HostPath : String
  HostPathType : String
  deriving DecidableEq, Repr

/-- Go `coreV1.VolumeMount`. -/
structure VolumeMount where
  MountPath : String
  Name : String
  deriving DecidableEq, Repr

/-- Go `coreV1.Container`. -/
structure Container where
  Name : String
  Image : String
  Args : List String
  Env : List EnvVar
  VolumeMounts : List VolumeMount
  ImagePullPolicy : String
  deriving DecidableEq, Repr

/-- Go `coreV1.PodSpec`; the node selector is a map literal, kept as its bindings. -/
structure PodSpec where
  NodeSelector : List (String × String)
  Tolerations : List Toleration
  Volumes : List Volume
  Containers : List Container
  RestartPolicy : String
  deriving DecidableEq, Repr

/-- Go `batchV1.Job` with `ObjectMeta`, `Spec` and `Status.Succeeded`, a count of pods. -/
structure Job where
  Name : String
  GenerateName : String
  Namespace : String
  Labels : List (String × String)
  TTLSecondsAfterFinished : Option Int
  Template : PodSpec
  Succeeded : Nat
  deriving DecidableEq, Repr

/-- What one `Jobs(ns).Get(ctx, name, ...)` call leaves behind: `ctx.Err()`, the
returned error and, when there is a job, its `Status.Succeeded`, the number of
pods that succeeded (an int32 that is never negative). -/
structure JobGetResponse where
  ctxErr : Option CtxErr
  err : Option Error
  Succeeded : Nat
  deriving DecidableEq, Repr

/-- What one `Nodes().Delete(ctx, name, ...)` call leaves behind. -/
structure DeleteResponse where
  ctxErr : Option CtxErr
  err : Option Error
  deriving DecidableEq, Repr

/-- What one `kubectl.Drain(ctx, ...)` call leaves behind. -/
structure DrainResponse where
  ctxErr : Option CtxErr
  msg : String
  err : Option Error
  deriving DecidableEq, Repr

/-- A call the controller issues to a collaborator. -/
inductive Call where
  | userContext (clusterName : String)
  | clusterGet (ns name : String)
  | getNodePool (name : String)
  | getKubeConfig (cluster : String)
  | drain (nodeName : String) (flags : List String) (timeout : Int)
  | jobsGet (ns name : String)
  | jobsCreate (ns : String) (job : Job)
  | nodesDelete (name : String)
  | nodeUpdate (node : Node)

/-- Go `config.UserContext`: the client of the downstream cluster.  The `Nat`
of `jobsGet` is the number of the call, counted from 0. -/
structure UserContext where
  jobsGet : Nat → String → String → JobGetResponse
  jobsCreate : String → Job → Except Error Job
  nodesDelete : String → DeleteResponse

/-- Go `Lifecycle`: the collaborators the receiver `m` reaches, with the package
functions of `nodehelper`, `kubectl` and `settings` the file calls. -/
structure Lifecycle where
  UserContext : String → Except Error UserContext
  clusterGet : String → String → Except Error Cluster
  getNodePool : String → Except Error String
  getKubeConfig : Cluster → Except Error String
  nodeUpdate : Node → Except Error Node
  IgnoreNode : String → Option GoMap → Bool
  DrainBeforeDelete : Node → Cluster → Option String → Bool
  GetDrainFlags : Node → List String
  Drain : Nat → String → String → List String → DrainResponse
  AgentImage : String

/-- The condition `waitUntilJobCompletes` hands to `wait.ExponentialBackoff`;
the state is the log of the calls issued so far. -/
def waitUntilJobCompletes.condition (userContext : UserContext) (job : Job)
    (log : List Call) : (Bool × Option Error) × List Call :=
  let r := userContext.jobsGet log.length job.Namespace job.Name
  let log1 := log ++ [Call.jobsGet job.Namespace job.Name]
  if r.ctxErr ≠ none then ((false, none), log1)
  else if r.err ≠ none then ((false, none), log1)
  else if r.Succeeded = 0 then ((false, none), log1)
  else ((true, none), log1)

/-- Go `(m *Lifecycle) waitUntilJobCompletes(userContext, job)`: the returned
error and the calls issued. -/
def waitUntilJobCompletes (_m : Lifecycle) (userContext : UserContext) (job : Job) :
    Option Error × List Call :=
  let backoff : wait.Backoff := { Duration := 2, Factor := 1, Jitter := 0, Steps := 10 }
  wait.ExponentialBackoff backoff (waitUntilJobCompletes.condition userContext job) []

/-- A poll observes success: the Get returned within its deadline, without
error, and with a succeeded count of at least one. -/
def ObservesSuccess (r : JobGetResponse) : Prop :=
  r.ctxErr = none ∧ r.err = none ∧ 1 ≤ r.Succeeded

instance : DecidablePred ObservesSuccess := fun r => by
  unfold ObservesSuccess
  infer_instance

/-- A cleanup job as the control plane names it once created. -/
def sampleJob : Job :=
  { Name := "cattle-node-cleanup-x7k2p", GenerateName := "cattle-node-cleanup-",
    Namespace := "default", Labels := [("cattle.io/creator", "norman")],
    TTLSecondsAfterFinished := some 300,
    Template := { NodeSelector := [("kubernetes.io/hostname", "worker-1")], Tolerations := [],
                  Volumes := [], Containers := [], RestartPolicy := "OnFailure" },
    Succeeded := 0 }

/-- A downstream cluster whose cleanup job never finishes: every Get answers in
time, without error, with `Status.Succeeded = 0`. -/
def pendingContext : UserContext :=
  { jobsGet := fun _ _ _ => ⟨none, none, 0⟩,
    jobsCreate := fun _ job => Except.ok job,
    nodesDelete := fun _ => ⟨none, none⟩ }

/-- A downstream cluster whose cleanup job is seen finished at the third Get:
the first Get runs into its deadline, the second sees no succeeded pod. -/
def thirdPollContext : UserContext :=
  { jobsGet := fun i _ _ =>
      if i = 0 then ⟨some CtxErr.DeadlineExceeded, some ⟨"context deadline exceeded", false⟩, 0⟩
      else if i = 1 then ⟨none, none, 0⟩
      else ⟨none, none, 1⟩,
    jobsCreate := fun _ job => Except.ok job,
    nodesDelete := fun _ => ⟨none, none⟩ }

/-- A management cluster `c-x1` whose collaborators all answer; draining is required. -/
def sampleLifecycle : Lifecycle :=
  { UserContext := fun _ => Except.ok pendingContext,
    clusterGet := fun _ name => Except.ok ⟨name, some ⟨"", ""⟩⟩,
    getNodePool := fun name => Except.ok name,
    getKubeConfig := fun _ => Except.ok "kubeconfig",
    nodeUpdate := fun n => Except.ok n,
    IgnoreNode := fun _ _ => false,
    DrainBeforeDelete := fun _ _ _ => true,
    GetDrainFlags := fun _ => ["--force"],
    Drain := fun _ _ _ _ => ⟨none, "", some ⟨"exit status 1", false⟩⟩,
    AgentImage := "rancher/rancher-agent:master" }

/-- Go `deleteV1Node`: the returned object and error, and the calls issued. -/
def deleteV1Node (m : Lifecycle) (node : Node) : (Node × Option Error) × List Call :=
  if m.IgnoreNode node.Status.NodeName node.Status.NodeLabels then ((node, none), [])
  else if node.Status.NodeName = "" then ((node, none), [])
  else
    match m.UserContext node.Namespace with
    | Except.error err =>
      if kerror.IsNotFound (some err) then ((node, none), [Call.userContext node.Namespace])
      else ((node, some err), [Call.userContext node.Namespace])
    | Except.ok userClient =>
      let r := userClient.nodesDelete node.Status.NodeName
      let log := [Call.userContext node.Namespace, Call.nodesDelete node.Status.NodeName]
      if !kerror.IsNotFound r.err && r.ctxErr ≠ some CtxErr.DeadlineExceeded then
        ((node, r.err), log)
      else ((node, none), log)

/-- The drain input `drainNode` fills in when the node carries none. -/
def defaultNodeDrainInput : NodeDrainInput :=
  { Force := true, DeleteLocalData := true, GracePeriod := 60, Timeout := 60 }

/-- The condition `drainNode` hands to `wait.ExponentialBackoff`; the state is
the log of the drain calls issued so far. -/
def drainNode.condition (m : Lifecycle) (nodeCopy : Node) (kubeConfig : String)
    (timeout : Int) (log : List Call) : (Bool × Option Error) × List Call :=
  let flags := m.GetDrainFlags nodeCopy
  let r := m.Drain log.length kubeConfig nodeCopy.Status.NodeName flags
  let log1 := log ++ [Call.drain nodeCopy.Status.NodeName flags timeout]
  if r.ctxErr ≠ none then ((false, none), log1)
  else if r.err ≠ none then ((false, none), log1)
  else ((true, none), log1)

/-- Go `drainNode`: the returned error and the calls issued. -/
def drainNode (m : Lifecycle) (node : Node) : Option Error × List Call :=
  let nodeCopy := node
  let log1 := [Call.clusterGet "" nodeCopy.Namespace]
  match m.clusterGet "" nodeCopy.Namespace with
  | Except.error err =>
    if kerror.IsNotFound (some err) then (none, log1) else (some err, log1)
  | Except.ok cluster =>
    let log2 := log1 ++ [Call.getNodePool node.Spec.NodePoolName]
    let pool : Option String × Option Error :=
      match m.getNodePool node.Spec.NodePoolName with
      | Except.ok p => (some p, none)
      | Except.error err => (none, some err)
    if pool.2 ≠ none ∧ !kerror.IsNotFound pool.2 then (pool.2, log2)
    else if !m.DrainBeforeDelete nodeCopy cluster pool.1 then (none, log2)
    else
      let log3 := log2 ++ [Call.getKubeConfig cluster.Name]
      match m.getKubeConfig cluster with
      | Except.error _ =>
        (some ⟨"node [" ++ nodeCopy.Spec.RequestedHostname ++ "] error getting kubeConfig", false⟩,
          log3)
      | Except.ok kubeConfig =>
        let input := nodeCopy.Spec.NodeDrainInput.getD defaultNodeDrainInput
        let nodeCopy := { nodeCopy with Spec := { nodeCopy.Spec with NodeDrainInput := some input } }
        let backoff : wait.Backoff := { Duration := 2, Factor := 1, Jitter := 0, Steps := 3 }
        let r := wait.ExponentialBackoff backoff
          (drainNode.condition m nodeCopy kubeConfig input.Timeout) []
        (r.1, log3 ++ r.2)

/-- What a Go call leaves: a run-time panic, or its return value. -/
inductive Outcome (α : Type) where
  | panic
  | returned (a : α)

/-- The tolerations loop of `createCleanUpJob`. -/
def createCleanUpJob.tolerations (node : Node) : List Toleration :=
  node.Spec.InternalNodeSpec.Taints.foldl
    (fun tolerations taint =>
      tolerations ++ [{ Effect := taint.Effect, Key := taint.Key, Operator := "Exists" }])
    []

/-- The job literal of `createCleanUpJob`, given the cluster's RKE configuration. -/
def createCleanUpJob.job (m : Lifecycle) (node : Node)
    (rke : RancherKubernetesEngineConfig) : Job :=
  { Name := "",
    GenerateName := "cattle-node-cleanup-",
    Namespace := "default",
    Labels := [("cattle.io/creator", "norman")],
    TTLSecondsAfterFinished := some (5 * 60),
    Template :=
      { NodeSelector := [("kubernetes.io/hostname", node.Status.NodeName)],
        Tolerations := createCleanUpJob.tolerations node,
        Volumes := [{ Name := "docker", HostPath := "/var/run/docker.sock",
                      HostPathType := "Socket" }],
        Containers :=
          [{ Name := "cattle-node-cleanup",
             Image := m.AgentImage,
             Args := ["--", "agent", "clean", "job"],
             Env := [⟨"AGENT_IMAGE", m.AgentImage⟩,
                     ⟨"PREFIX_PATH", rke.PrefixPath⟩,
                     ⟨"WINDOWS_PREFIX_PATH", rke.WindowsPrefixPath⟩],
             VolumeMounts := [{ MountPath := "/var/run/docker.sock", Name := "docker" }],
             ImagePullPolicy := "Always" }],
        RestartPolicy := "OnFailure" },
    Succeeded := 0 }

/-- The rest of `createCleanUpJob` once the cluster lookup has left `cluster`
(`none` when nil): reading `cluster.Spec.RancherKubernetesEngineConfig.PrefixPath`
through a nil pointer panics before any job is submitted. -/
def createCleanUpJob.submit (m : Lifecycle) (userContext : UserContext) (node : Node)
    (cluster : Option Cluster) (log : List Call) : Outcome (Except Error Job) × List Call :=
  match cluster.bind (fun c => c.RancherKubernetesEngineConfig) with
  | none => (Outcome.panic, log)
  | some rke =>
    let job := createCleanUpJob.job m node rke
    (Outcome.returned (userContext.jobsCreate "default" job),
      log ++ [Call.jobsCreate "default" job])

/-- Go `createCleanUpJob`: a lookup error other than not-found is returned; a
not-found cluster leaves `cluster` nil and the function goes on. -/
def createCleanUpJob (m : Lifecycle) (userContext : UserContext) (node : Node) :
    Outcome (Except Error Job) × List Call :=
  let log1 := [Call.clusterGet "" node.Namespace]
  match m.clusterGet "" node.Namespace with
  | Except.error err =>
    if !kerror.IsNotFound (some err) then (Outcome.returned (Except.error err), log1)
    else createCleanUpJob.submit m userContext node none log1
  | Except.ok cluster => createCleanUpJob.submit m userContext node (some cluster) log1

/-- The names `userNodeRemoveCleanup` uses; they are declared in another file of
the package. -/
structure Constants where
  userNodeRemoveFinalizerPrefix : String
  userNodeRemoveAnnotationPrefix : String
  userNodeRemoveCleanupAnnotation : String
  userNodeRemoveCleanupAnnotationOld : String
  deriving DecidableEq, Repr

/-- Go `removeFinalizerWithPrefix`. -/
def removeFinalizerWithPrefix (finalizers : List String) (p : String) : List String :=
  finalizers.foldl
    (fun nf finalizer => if strings.HasPrefix finalizer p then nf else nf ++ [finalizer]) []

/-- Go `removeAnnotationWithPrefix`: ranges over the keys, deleting as it goes. -/
def removeAnnotationWithPrefix (annotations : GoMap) (p : String) : GoMap :=
  annotations.keys.foldl
    (fun m k => if strings.HasPrefix k p then m.delete k else m) annotations

/-- The object `userNodeRemoveCleanup` builds and hands to `nodeClient.Update`. -/
def userNodeRemoveCleanup.newObj (c : Constants) (obj : Node) : Node :=
  let newObj := obj
  let newObj := { newObj with
    Finalizers := removeFinalizerWithPrefix newObj.Finalizers c.userNodeRemoveFinalizerPrefix }
  let annos : GoMap :=
    match newObj.Annotations with
    | none => GoMap.empty
    | some annos =>
      (removeAnnotationWithPrefix annos c.userNodeRemoveAnnotationPrefix).delete
        c.userNodeRemoveCleanupAnnotationOld
  let annos := annos.set c.userNodeRemoveCleanupAnnotation "true"
  { newObj with Annotations := some annos }

/-- Go `userNodeRemoveCleanup`: the result of `nodeClient.Update` and the call. -/
def userNodeRemoveCleanup (m : Lifecycle) (c : Constants) (obj : Node) :
    Except Error Node × List Call :=
  let newObj := userNodeRemoveCleanup.newObj c obj
  (m.nodeUpdate newObj, [Call.nodeUpdate newObj])

/-- Reading an annotation of a node whose map may be nil. -/
def Node.annotationAt (n : Node) (k : String) : Option String :=
  match n.Annotations with
  | none => none
  | some m => m.get k

/-- Go `len(n.GetAnnotations())`; 0 on the nil map. -/
def Node.annotationCount (n : Node) : Nat :=
  match n.Annotations with
  | none => 0
  | some m => m.len

/-- The names as the package declares them upstream. -/
def upstreamConstants : Constants :=
  { userNodeRemoveFinalizerPrefix := "clusterscoped.controller.cattle.io/user-node-remove_",
    userNodeRemoveAnnotationPrefix := "lifecycle.cattle.io/create.user-node-remove_",
    userNodeRemoveCleanupAnnotation := "cleanup.cattle.io/user-node-remove",
    userNodeRemoveCleanupAnnotationOld := "nodes.management.cattle.io/user-node-remove-cleanup" }

/-- A worker node of cluster `c-x1` with two taints and no drain input. -/
def sampleNode : Node :=
  { Name := "m-7f2c1", Namespace := "c-x1",
    Finalizers := ["controller.cattle.io/node-controller",
                   "clusterscoped.controller.cattle.io/user-node-remove_c-x1"],
    Annotations := some (GoMap.ofList
      [("lifecycle.cattle.io/create.user-node-remove_c-x1", "true"),
       ("cattle.io/creator", "norman")]),
    Spec := { NodePoolName := "c-x1:np-1", RequestedHostname := "worker-1",
              NodeDrainInput := none,
              InternalNodeSpec := { Taints := [⟨"dedicated", "gpu", "NoSchedule"⟩,
                                               ⟨"node.kubernetes.io/unreachable", "", "NoExecute"⟩] } },
    Status := { NodeName := "worker-1", NodeLabels := none } }

/-- A node with no reserved finalizer, no reserved annotation and no marker; it
still carries the old cleanup annotation. -/
def plainNode : Node :=
  { Name := "m-2a9d0", Namespace := "c-x1",
    Finalizers := ["controller.cattle.io/node-controller"],
    Annotations := some (GoMap.ofList
      [("nodes.management.cattle.io/user-node-remove-cleanup", "true")]),
    Spec := { NodePoolName := "", RequestedHostname := "worker-2", NodeDrainInput := none,
              InternalNodeSpec := { Taints := [] } },
    Status := { NodeName := "worker-2", NodeLabels := none } }

/-- The keys of the annotations of a node; none on the nil map. -/
def Node.annotationKeys (n : Node) : List String :=
  match n.Annotations with
  | none => []
  | some m => m.keys

/-- A node that carries neither a reserved finalizer nor any cleanup annotation. -/
def freshNode : Node :=
  { Name := "m-5c3e8", Namespace := "c-x1",
    Finalizers := ["controller.cattle.io/node-controller"],
    Annotations := some (GoMap.ofList [("cattle.io/creator", "norman")]),
    Spec := { NodePoolName := "", RequestedHostname := "worker-3", NodeDrainInput := none,
              InternalNodeSpec := { Taints := [] } },
    Status := { NodeName := "worker-3", NodeLabels := none } }

end node

/-! ## The agent: `pkg/agent/clean` (Windows) -/

namespace strings

/-- The characters of Go `strings.Replace(s, old, new, 1)` for a non-empty `old`:
the first occurrence of `old` is replaced. -/
def replaceFirst (old new : List Char) : List Char → List Char
  | [] => []
  | c :: cs =>
    if old.isPrefixOf (c :: cs) then new ++ (c :: cs).drop old.length
    else c :: replaceFirst old new cs

/-- Go `strings.Replace(s, old, new, 1)` for a non-empty `old`. -/
def Replace1 (s old new : String) : String :=
  ⟨replaceFirst old.data new.data s.data⟩

end strings

namespace clean

/-- Go `const ContainerName`. -/
def ContainerName : String := "cattle-node-cleanup"

/-- Go `types.Container`, as `ContainerList` returns it. -/
structure Container where
  ID : String
  Names : List String
  deriving DecidableEq, Repr

/-- Go `types.ContainerJSON`, as `ContainerInspect` returns it: `ID` and `Config.Image`. -/
structure ContainerJSON where
  ID : String
  Image : String
  deriving DecidableEq, Repr

/-- Go `container.Config`. -/
structure Config where
  Image : String
  Env : List String
  Cmd : List String
  deriving DecidableEq, Repr

/-- Go `container.HostConfig`. -/
structure HostConfig where
  Binds : List String
  Privileged : Bool
  NetworkMode : String
  deriving DecidableEq, Repr

/-- A call the agent issues: to the container engine, the file system, the
`wins.exe` helper or the clock. -/
inductive Call where
  | NewClient
  | Close
  | ContainerList
  | ContainerCreate (config : Config) (hostConfig : HostConfig) (containerName : String)
  | ContainerStart (id : String)
  | ContainerInspect (id : String)
  | ContainerKill (id : String) (signal : String)
  | WriteFile (path : String) (perm : Nat)
  | Run (name : String) (args : List String)
  | Sleep (seconds : Nat)
  deriving DecidableEq, Repr

/-- The host the agent runs on: its environment variables, Go `path.Join`, and
the answers of the engine, the file system and `exec.Command(...).Run()`.  The
`Nat` of `ContainerList` is the number of the listing, counted from 0. -/
structure Host where
  Getenv : String → String
  pathJoin : List String → String
  NewClient : Option Error
  ContainerList : Nat → Except Error (List Container)
  ContainerCreate : Config → HostConfig → String → Except Error String
  ContainerStart : String → Option Error
  ContainerInspect : String → Except Error ContainerJSON
  ContainerKill : String → String → Option Error
  WriteFile : String → Option Error
  Run : String → List String → Option Error

/-- The number of `ContainerList` calls in a log. -/
def listings (log : List Call) : Nat :=
  log.count Call.ContainerList

/-- Go `fmt.Errorf(text + "%s", err)`. -/
def Errorf (text : String) (err : Error) : Error :=
  ⟨text ++ err.msg, false⟩

/-- Go `getAgentImage`. -/
def getAgentImage (h : Host) : String :=
  let agentImage := h.Getenv "AGENT_IMAGE"
  if agentImage = "" then "rancher/rancher-agent:master" else agentImage

/-- Go `getPrefixPath`. -/
def getPrefixPath (h : Host) : String :=
  h.Getenv "WINDOWS_PREFIX_PATH"

/-- Go `getScriptPath`. -/
def getScriptPath (h : Host) : String :=
  h.pathJoin [getPrefixPath h, "etc", "rancher", "cleanup.ps1"]

/-- Go `createWinsArgs`. -/
def createWinsArgs (h : Host) (cmd : String) : List String :=
  ["cli", "prc", "run", "--path", "\"" ++ getScriptPath h ++ "\"",
   "--args", "\"-Tasks " ++ cmd ++ "\""]

/-- Go `exec.Command("wins.exe", createWinsArgs(cmd)...).Run()`, after the calls in `log`. -/
def runWins (h : Host) (cmd : String) (log : List Call) : Option Error × List Call :=
  let winsArgs := createWinsArgs h cmd
  (h.Run "wins.exe" winsArgs, log ++ [Call.Run "wins.exe" winsArgs])

/-- Go `Links`. -/
def Links (h : Host) (log : List Call) : Option Error × List Call :=
  runWins h "Network" log

/-- Go `Paths`. -/
def Paths (h : Host) (log : List Call) : Option Error × List Call :=
  runWins h "Paths" log

/-- Go `cleanDocker`. -/
def cleanDocker (h : Host) (log : List Call) : Option Error × List Call :=
  runWins h "Docker" log

/-- Go `Firewall`. -/
def Firewall (h : Host) (log : List Call) : Option Error × List Call :=
  runWins h "Firewall" log

/-- The container to create in `Job`. -/
def Job.config (h : Host) : Config :=
  { Image := getAgentImage h,
    Env := ["AGENT_IMAGE=" ++ getAgentImage h,
            "PREFIX_PATH=" ++ h.Getenv "PREFIX_PATH",
            "WINDOWS_PREFIX_PATH=" ++ h.Getenv "WINDOWS_PREFIX_PATH"],
    Cmd := ["--", "agent", "clean"] }

/-- The host configuration of the container to create in `Job`. -/
def Job.hostConfig : HostConfig :=
  { Binds := ["\\\\.\\pipe\\docker_engine:\\\\.\\pipe\\docker_engine",
              "c:\\:c:\\host:z",
              "\\\\.\\pipe\\rancher_wins:\\\\.\\pipe\\rancher_wins"],
    Privileged := false,
    NetworkMode := "host" }

/-- Go `Job`: the returned error and the calls issued; `Close` is the deferred call. -/
def Job (h : Host) : Option Error × List Call :=
  match h.NewClient with
  | some err => (some err, [Call.NewClient])
  | none =>
    let log := [Call.NewClient, Call.ContainerList]
    match h.ContainerList 0 with
    | Except.error err => (some err, log ++ [Call.Close])
    | Except.ok containerList =>
      if containerList.any (fun c => c.Names.any (fun n => n = "/" ++ ContainerName)) then
        (none, log ++ [Call.Close])
      else
        let log := log ++ [Call.ContainerCreate (Job.config h) Job.hostConfig ContainerName]
        match h.ContainerCreate (Job.config h) Job.hostConfig ContainerName with
        | Except.error err => (some err, log ++ [Call.Close])
        | Except.ok id => (h.ContainerStart id, log ++ [Call.ContainerStart id, Call.Close])

/-- The `hasPods` flag `waitForK8sPods` computes from one listing: the inner
`continue` goes on with the next name, the outer one with the next container. -/
def waitForK8sPods.hasPods (containerList : List Container) : Bool :=
  containerList.foldl
    (fun hasPods c =>
      let hasPods := c.Names.foldl
        (fun hasPods n => if strings.HasPrefix n "/k8s_" then true else hasPods) hasPods
      if hasPods then hasPods else hasPods)
    false

/-- The loop of `waitForK8sPods` with `n` rounds left, after the calls in `log`. -/
def waitForK8sPods.loop (h : Host) : Nat → List Call → Option Error × List Call
  | 0, log => (none, log)
  | n + 1, log =>
    let log1 := log ++ [Call.ContainerList]
    match h.ContainerList (listings log) with
    | Except.error err => (some err, log1)
    | Except.ok containerList =>
      if waitForK8sPods.hasPods containerList then
        waitForK8sPods.loop h n (log1 ++ [Call.Sleep 10])
      else (none, log1)

/-- Go `waitForK8sPods`, after the calls in `log`. -/
def waitForK8sPods (h : Host) (log : List Call) : Option Error × List Call :=
  waitForK8sPods.loop h 30 log

/-- The loop of `stopContainers` over the listed containers. -/
def stopContainers.loop (h : Host) : List Container → List Call → Option Error × List Call
  | [], log => (none, log)
  | container :: rest, log =>
    let log1 := log ++ [Call.ContainerInspect container.ID]
    match h.ContainerInspect container.ID with
    | Except.error err => (some err, log1)
    | Except.ok config =>
      if strings.HasPrefix config.Image "rancher/" then
        let log2 := log1 ++ [Call.ContainerKill config.ID "SIGKILL"]
        match h.ContainerKill config.ID "SIGKILL" with
        | some err => (some err, log2)
        | none => stopContainers.loop h rest log2
      else stopContainers.loop h rest log1

/-- Go `stopContainers`, after the calls in `log`. -/
def stopContainers (h : Host) (log : List Call) : Option Error × List Call :=
  let log1 := log ++ [Call.ContainerList]
  match h.ContainerList (listings log) with
  | Except.error err => (some err, log1)
  | Except.ok containers => stopContainers.loop h containers log1

/-- The body of Go `Node` once the engine client exists, after the calls in `log`. -/
def Node.steps (h : Host) (log : List Call) : Option Error × List Call :=
  let scriptPath := strings.Replace1 (getScriptPath h) "c:\\" "c:\\host\\"
  let log := log ++ [Call.WriteFile scriptPath 0o777]
  match h.WriteFile scriptPath with
  | some err => (some (Errorf "error writing the cleanup script to the host: " err), log)
  | none =>
    match waitForK8sPods h log with
    | (some err, log) => (some (Errorf "error waiting for k8s pods to be removed: " err), log)
    | (none, log) =>
      match stopContainers h log with
      | (some err, log) =>
        (some (Errorf "error trying to stop all rancher containers: " err), log)
      | (none, log) =>
        match Paths h log with
        | (some err, log) =>
          (some (Errorf "error trying to clean directories from the host: " err), log)
        | (none, log) =>
          match cleanDocker h log with
          | (some err, log) => (some (Errorf "error trying to system prune docker: " err), log)
          | (none, log) =>
            match Links h log with
            | (some err, log) =>
              (some (Errorf "error trying to clean links from the host: " err), log)
            | (none, log) =>
              match Firewall h log with
              | (some err, log) =>
                (some (Errorf "error trying to flush firewall rules: " err), log)
              | (none, log) => (none, log)

/-- Go `Node`: the returned error and the calls issued; `Close` is the deferred call. -/
def Node (h : Host) : Option Error × List Call :=
  match h.NewClient with
  | some err => (some err, [Call.NewClient])
  | none =>
    let r := Node.steps h [Call.NewClient]
    (r.1, r.2 ++ [Call.Close])

/-- A Windows host with one unrelated container, on which every call succeeds. -/
def quietHost : Host :=
  { Getenv := fun name => if name = "WINDOWS_PREFIX_PATH" then "c:\\" else "",
    pathJoin := fun elems => "/".intercalate elems,
    NewClient := none,
    ContainerList := fun _ => Except.ok [⟨"4f1c", ["/registry"]⟩],
    ContainerCreate := fun _ _ _ => Except.ok "9b7e",
    ContainerStart := fun _ => none,
    ContainerInspect := fun id => Except.ok ⟨id, "registry:2"⟩,
    ContainerKill := fun _ _ => none,
    WriteFile := fun _ => none,
    Run := fun _ _ => none }

/-- The host `quietHost` with an engine that refuses to create containers. -/
def noCreateHost : Host :=
  { quietHost with
    ContainerCreate := fun _ _ _ => Except.error ⟨"No such image: rancher/rancher-agent:master", false⟩ }

/-- The host `quietHost` on which the cleanup container already exists. -/
def busyHost : Host :=
  { quietHost with
    ContainerList := fun _ =>
      Except.ok [⟨"4f1c", ["/registry"]⟩, ⟨"77aa", ["/cattle-node-cleanup"]⟩] }

end clean

namespace node

/-- A downstream cluster that refuses to delete its nodes. -/
def refusedDeleteContext : UserContext :=
  { pendingContext with
    nodesDelete := fun _ => ⟨none, some ⟨"nodes is forbidden", false⟩⟩ }

/-- The management cluster of `sampleLifecycle` over `refusedDeleteContext`. -/
def refusedDeleteLifecycle : Lifecycle :=
  { sampleLifecycle with UserContext := fun _ => Except.ok refusedDeleteContext }

/-- Go `cleanNode`: a panic of `createCleanUpJob` goes through it. -/
def cleanNode (m : Lifecycle) (node : Node) : Outcome (Option Error) × List Call :=
  let log1 := [Call.userContext node.Namespace]
  match m.UserContext node.Namespace with
  | Except.error err =>
    if kerror.IsNotFound (some err) then (Outcome.returned none, log1)
    else (Outcome.returned (some err), log1)
  | Except.ok userContext =>
    match createCleanUpJob m userContext node with
    | (Outcome.panic, log) => (Outcome.panic, log1 ++ log)
    | (Outcome.returned (Except.error err), log) => (Outcome.returned (some err), log1 ++ log)
    | (Outcome.returned (Except.ok job), log) =>
      let r := waitUntilJobCompletes m userContext job
      (Outcome.returned r.1, log1 ++ log ++ r.2)

/-- The management cluster of `sampleLifecycle` once cluster `c-x1` is gone from
the lister while its user context is still served. -/
def orphanLifecycle : Lifecycle :=
  { sampleLifecycle with
    clusterGet := fun _ _ => Except.error ⟨"cluster.management.cattle.io not found", true⟩ }

end node

namespace clean

/-- Some container of the listing has some name that starts with "/k8s_". -/
def HasK8sPods (containerList : List Container) : Prop :=
  ∃ c ∈ containerList, ∃ n ∈ c.Names, strings.HasPrefix n "/k8s_" = true

/-- The calls of `j` rounds of `waitForK8sPods` that found pods: a listing and a
sleep of 10s each. -/
def waitForK8sPods.rounds : Nat → List Call
  | 0 => []
  | j + 1 => Call.ContainerList :: Call.Sleep 10 :: waitForK8sPods.rounds j

/-- The calls `stopContainers` issues for one container when nothing fails
earlier: the inspection and, for a managed image, the kill. -/
def stopContainers.attempt (h : Host) (container : Container) : List Call :=
  match h.ContainerInspect container.ID with
  | Except.error _ => [Call.ContainerInspect container.ID]
  | Except.ok config =>
    if strings.HasPrefix config.Image "rancher/" then
      [Call.ContainerInspect container.ID, Call.ContainerKill config.ID "SIGKILL"]
    else [Call.ContainerInspect container.ID]

/-- The calls `stopContainers` issues for a run of containers, one after the other. -/
def stopContainers.calls (h : Host) : List Container → List Call
  | [] => []
  | container :: rest => stopContainers.attempt h container ++ stopContainers.calls h rest

/-- The inspection of the container succeeds and so does its kill, if it is
managed. -/
def InspectAndKillSucceed (h : Host) (container : Container) : Prop :=
  ∃ config, h.ContainerInspect container.ID = Except.ok config ∧
    (strings.HasPrefix config.Image "rancher/" = true →
      h.ContainerKill config.ID "SIGKILL" = none)

/-- The inspected image of the container starts with "rancher/". -/
def managed (h : Host) (container : Container) : Bool :=
  match h.ContainerInspect container.ID with
  | Except.error _ => false
  | Except.ok config => strings.HasPrefix config.Image "rancher/"

/-- The ID the inspection of the container reports; the kill goes to it. -/
def inspectedID (h : Host) (container : Container) : String :=
  match h.ContainerInspect container.ID with
  | Except.error _ => container.ID
  | Except.ok config => config.ID

/-- The containers a log sends a signal to, with the signal, in order. -/
def kills (log : List Call) : List (String × String) :=
  log.filterMap (fun c =>
    match c with
    | Call.ContainerKill id signal => some (id, signal)
    | _ => none)

/-- The containers a log inspects, in order. -/
def inspections (log : List Call) : List String :=
  log.filterMap (fun c =>
    match c with
    | Call.ContainerInspect id => some id
    | _ => none)

/-- A host whose pods are gone at the third listing. -/
def drainingHost : Host :=
  { quietHost with
    ContainerList := fun i =>
      if i < 2 then Except.ok [⟨"4f1c", ["/registry"]⟩, ⟨"c0de", ["/k8s_POD_coredns"]⟩]
      else Except.ok [⟨"4f1c", ["/registry"]⟩] }

/-- A host with an unrelated container between two managed ones. -/
def managedHost : Host :=
  { quietHost with
    ContainerList := fun _ =>
      Except.ok [⟨"a1", ["/kubelet"]⟩, ⟨"4f1c", ["/registry"]⟩, ⟨"b2", ["/kube-proxy"]⟩],
    ContainerInspect := fun id =>
      if id = "4f1c" then Except.ok ⟨id, "registry:2"⟩
      else Except.ok ⟨id, "rancher/hyperkube:v1.18.6"⟩ }

/-- The host `managedHost` on which the registry container cannot be inspected. -/
def brokenInspectHost : Host :=
  { managedHost with
    ContainerInspect := fun id =>
      if id = "4f1c" then Except.error ⟨"No such container: 4f1c", false⟩
      else Except.ok ⟨id, "rancher/hyperkube:v1.18.6"⟩ }

end clean

/-! # Theorems -/

/-! ## Waiting for the cleanup job -/

namespace node

theorem condition_of_not_success (uc : UserContext) (job : Job) (log : List Call)
    (h : ¬ ObservesSuccess (uc.jobsGet log.length job.Namespace job.Name)) :
    waitUntilJobCompletes.condition uc job log
      = ((false, none), log ++ [Call.jobsGet job.Namespace job.Name]) := by
  unfold ObservesSuccess at h
  unfold waitUntilJobCompletes.condition
  by_cases h1 : (uc.jobsGet log.length job.Namespace job.Name).ctxErr = none
  · by_cases h2 : (uc.jobsGet log.length job.Namespace job.Name).err = none
    · have h3 : (uc.jobsGet log.length job.Namespace job.Name).Succeeded = 0 := by
        by_contra h0
        exact h ⟨h1, h2, Nat.one_le_iff_ne_zero.2 h0⟩
      simp [h1, h2, h3]
    · simp [h1, h2]
  · simp [h1]

theorem condition_of_success (uc : UserContext) (job : Job) (log : List Call)
    (h : ObservesSuccess (uc.jobsGet log.length job.Namespace job.Name)) :
    waitUntilJobCompletes.condition uc job log
      = ((true, none), log ++ [Call.jobsGet job.Namespace job.Name]) := by
  obtain ⟨h1, h2, h3⟩ := h
  have h4 : (uc.jobsGet log.length job.Namespace job.Name).Succeeded ≠ 0 := by omega
  unfold waitUntilJobCompletes.condition
  simp [h1, h2, h4]

/-- With no successful poll among the next `n`, the loop polls `n` times and times out. -/
theorem backoffLoop_never (uc : UserContext) (job : Job) (n : Nat) :
    ∀ log : List Call,
      (∀ i, i < n → ¬ ObservesSuccess (uc.jobsGet (log.length + i) job.Namespace job.Name)) →
      wait.backoffLoop (waitUntilJobCompletes.condition uc job) n log
        = (some wait.ErrWaitTimeout,
            log ++ List.replicate n (Call.jobsGet job.Namespace job.Name)) := by
  induction n with
  | zero => intro log _; simp [wait.backoffLoop]
  | succ n ih =>
    intro log h
    have h0 := condition_of_not_success uc job log (by simpa using h 0 (Nat.succ_pos n))
    rw [wait.backoffLoop, h0]
    by_cases hn : n = 0
    · subst hn; simp
    · have hstep := ih (log ++ [Call.jobsGet job.Namespace job.Name]) (by
        intro i hi
        have := h (i + 1) (by omega)
        simpa [Nat.add_assoc, Nat.add_comm 1 i] using this)
      simp [hn, hstep, List.replicate_succ]

/-- With the first successful poll `j` polls ahead and within the budget, the
loop polls `j + 1` times and returns nil. -/
theorem backoffLoop_first (uc : UserContext) (job : Job) (j : Nat) :
    ∀ (n : Nat) (log : List Call), j < n →
      (∀ i, i < j → ¬ ObservesSuccess (uc.jobsGet (log.length + i) job.Namespace job.Name)) →
      ObservesSuccess (uc.jobsGet (log.length + j) job.Namespace job.Name) →
      wait.backoffLoop (waitUntilJobCompletes.condition uc job) n log
        = (none, log ++ List.replicate (j + 1) (Call.jobsGet job.Namespace job.Name)) := by
  induction j with
  | zero =>
    intro n log hn _ hs
    obtain ⟨n, rfl⟩ : ∃ k, n = k + 1 := ⟨n - 1, by omega⟩
    have h0 := condition_of_success uc job log (by simpa using hs)
    rw [wait.backoffLoop, h0]
    simp
  | succ j ih =>
    intro n log hn hf hs
    obtain ⟨n, rfl⟩ : ∃ k, n = k + 1 := ⟨n - 1, by omega⟩
    have h0 := condition_of_not_success uc job log (by simpa using hf 0 (Nat.succ_pos j))
    have hstep := ih n (log ++ [Call.jobsGet job.Namespace job.Name]) (by omega) (by
        intro i hi
        have := hf (i + 1) (by omega)
        simpa [Nat.add_assoc, Nat.add_comm 1 i] using this) (by
        simpa [Nat.add_assoc, Nat.add_comm 1 j] using hs)
    have hn0 : n ≠ 0 := by omega
    rw [wait.backoffLoop, h0]
    simp [hn0, hstep, List.replicate_succ]

/-- When no poll ever observes success, `waitUntilJobCompletes` polls 10 times
and returns `wait.ErrWaitTimeout`. -/
theorem waitUntilJobCompletes_of_never (m : Lifecycle) (uc : UserContext) (job : Job)
    (h : ∀ i, ¬ ObservesSuccess (uc.jobsGet i job.Namespace job.Name)) :
    waitUntilJobCompletes m uc job
      = (some wait.ErrWaitTimeout, List.replicate 10 (Call.jobsGet job.Namespace job.Name)) := by
  have := backoffLoop_never uc job 10 [] (fun i _ => by simpa using h i)
  simpa [waitUntilJobCompletes, wait.ExponentialBackoff] using this

/-- C1, the code at the failing input: for a job whose every poll answers in
time with `Status.Succeeded = 0`, `waitUntilJobCompletes` makes its 10 polls and
then returns `wait.ErrWaitTimeout`, which is not the nil error. -/
theorem waitUntilJobCompletes_pending_returns_ErrWaitTimeout :
    waitUntilJobCompletes sampleLifecycle pendingContext sampleJob
        = (some wait.ErrWaitTimeout,
            List.replicate 10 (Call.jobsGet "default" "cattle-node-cleanup-x7k2p")) ∧
      (waitUntilJobCompletes sampleLifecycle pendingContext sampleJob).1 ≠ none := by
  have h := waitUntilJobCompletes_of_never sampleLifecycle pendingContext sampleJob
    (fun i hs => by
      have h3 := hs.2.2
      simp [pendingContext] at h3)
  refine ⟨h, ?_⟩
  rw [h]
  simp

/-- C6: `waitUntilJobCompletes` polls the job exactly `min k 10` times, where
`k` counts (from 1) the first poll that returns in time, without error and with
`Status.Succeeded >= 1`; when `k <= 10` it returns nil right at that poll; and
when no poll ever observes success it polls exactly 10 times. -/
theorem waitUntilJobCompletes_poll_count (m : Lifecycle) (uc : UserContext) (job : Job) :
    (∀ k, 1 ≤ k →
        ObservesSuccess (uc.jobsGet (k - 1) job.Namespace job.Name) →
        (∀ i, i < k - 1 → ¬ ObservesSuccess (uc.jobsGet i job.Namespace job.Name)) →
        (waitUntilJobCompletes m uc job).2
            = List.replicate (min k 10) (Call.jobsGet job.Namespace job.Name) ∧
          (k ≤ 10 → (waitUntilJobCompletes m uc job).1 = none)) ∧
      ((∀ i, ¬ ObservesSuccess (uc.jobsGet i job.Namespace job.Name)) →
        (waitUntilJobCompletes m uc job).2
          = List.replicate 10 (Call.jobsGet job.Namespace job.Name)) := by
  refine ⟨?_, fun h => by rw [waitUntilJobCompletes_of_never m uc job h]⟩
  intro k hk hs hf
  by_cases hk10 : k ≤ 10
  · have := backoffLoop_first uc job (k - 1) 10 [] (by omega)
      (fun i hi => by simpa using hf i hi) (by simpa using hs)
    have hk1 : k - 1 + 1 = k := by omega
    rw [hk1] at this
    have hw : waitUntilJobCompletes m uc job
        = (none, List.replicate k (Call.jobsGet job.Namespace job.Name)) := by
      simpa [waitUntilJobCompletes, wait.ExponentialBackoff] using this
    rw [hw, Nat.min_eq_left hk10]
    exact ⟨rfl, fun _ => rfl⟩
  · have := backoffLoop_never uc job 10 [] (fun i hi => by
      simpa using hf i (by omega))
    have hw : waitUntilJobCompletes m uc job
        = (some wait.ErrWaitTimeout,
            List.replicate 10 (Call.jobsGet job.Namespace job.Name)) := by
      simpa [waitUntilJobCompletes, wait.ExponentialBackoff] using this
    rw [hw, Nat.min_eq_right (by omega)]
    exact ⟨rfl, fun h => absurd h hk10⟩

/-- C6 at a job seen finished at its third poll: three polls, then nil. -/
theorem waitUntilJobCompletes_poll_count_witness :
    (waitUntilJobCompletes sampleLifecycle thirdPollContext sampleJob).2
        = List.replicate (min 3 10) (Call.jobsGet "default" "cattle-node-cleanup-x7k2p") ∧
      (waitUntilJobCompletes sampleLifecycle thirdPollContext sampleJob).1 = none := by
  have h := (waitUntilJobCompletes_poll_count sampleLifecycle thirdPollContext sampleJob).1 3
    (by decide) (by decide) (by decide)
  exact ⟨h.1, h.2 (by decide)⟩

end node

/-! ## Maps and prefix removal -/

theorem GoMap.ext_entries {m1 m2 : GoMap} (h : m1.entries = m2.entries) : m1 = m2 := by
  cases m1
  cases m2
  simp only [GoMap.mk.injEq]
  exact h

theorem find_filter_key (l : List (String × String)) (q : String → Bool) (k : String) :
    (l.filter (fun e => q e.1)).find? (fun e => decide (e.1 = k))
      = if q k then l.find? (fun e => decide (e.1 = k)) else none := by
  induction l with
  | nil => simp
  | cons e l ih =>
    by_cases hq : q e.1 = true
    · by_cases hk : e.1 = k
      · subst hk
        simp [List.filter_cons, hq]
      · simp [List.filter_cons, hq, List.find?_cons, hk, ih]
    · by_cases hk : e.1 = k
      · subst hk
        simp [List.filter_cons, hq, ih]
      · simp [List.filter_cons, hq, List.find?_cons, hk, ih]

theorem GoMap.get_delete (m : GoMap) (k k1 : String) :
    (m.delete k).get k1 = if k1 = k then none else m.get k1 := by
  have h := find_filter_key m.entries (fun x => decide (x ≠ k)) k1
  simp only [GoMap.get, GoMap.delete]
  rw [h]
  by_cases hk : k1 = k <;> simp [hk]

theorem GoMap.get_set (m : GoMap) (k v k1 : String) :
    (m.set k v).get k1 = if k1 = k then some v else m.get k1 := by
  by_cases hk : k1 = k
  · subst hk
    simp [GoMap.get, GoMap.set]
  · have hk2 : ¬ k = k1 := fun h => hk h.symm
    have h := GoMap.get_delete m k k1
    rw [if_neg hk] at h
    rw [if_neg hk, ← h]
    simp only [GoMap.get, GoMap.set]
    rw [List.find?_cons_of_neg]
    simpa using hk2

theorem GoMap.get_empty (k : String) : GoMap.empty.get k = none := by
  simp [GoMap.get, GoMap.empty]

namespace node

theorem removeFinalizerWithPrefix_eq_filter (finalizers : List String) (p : String) :
    removeFinalizerWithPrefix finalizers p
      = finalizers.filter (fun f => !strings.HasPrefix f p) := by
  have h : ∀ (fs nf : List String),
      fs.foldl (fun nf finalizer =>
          if strings.HasPrefix finalizer p then nf else nf ++ [finalizer]) nf
        = nf ++ fs.filter (fun f => !strings.HasPrefix f p) := by
    intro fs
    induction fs with
    | nil => intro nf; simp
    | cons f fs ih =>
      intro nf
      by_cases hf : strings.HasPrefix f p = true
      · simp [List.foldl_cons, ih, hf]
      · simp [List.foldl_cons, ih, hf]
  simpa [removeFinalizerWithPrefix] using h finalizers []

theorem removeAnnotationWithPrefix_entries (annotations : GoMap) (p : String) :
    (removeAnnotationWithPrefix annotations p).entries
      = annotations.entries.filter (fun e => !strings.HasPrefix e.1 p) := by
  have h : ∀ (ks : List String) (m : GoMap),
      (ks.foldl (fun m k => if strings.HasPrefix k p then m.delete k else m) m).entries
        = m.entries.filter (fun e => !(decide (e.1 ∈ ks) && strings.HasPrefix e.1 p)) := by
    intro ks
    induction ks with
    | nil => intro m; simp
    | cons k ks ih =>
      intro m
      rw [List.foldl_cons, ih]
      by_cases hk : strings.HasPrefix k p = true
      · simp only [hk, if_true, GoMap.delete, List.filter_filter]
        apply List.filter_congr
        intro e _
        by_cases he : e.1 = k
        · simp [he, hk]
        · simp [he]
      · simp only [hk, Bool.false_eq_true, if_false]
        apply List.filter_congr
        intro e _
        by_cases he : e.1 = k
        · simp [he, hk]
        · simp [he]
  rw [removeAnnotationWithPrefix, h]
  apply List.filter_congr
  intro e he
  have : e.1 ∈ annotations.keys := List.mem_map.2 ⟨e, he, rfl⟩
  simp [this]

theorem get_removeAnnotationWithPrefix (annotations : GoMap) (p k : String) :
    (removeAnnotationWithPrefix annotations p).get k
      = if strings.HasPrefix k p then none else annotations.get k := by
  have h := find_filter_key annotations.entries (fun x => !strings.HasPrefix x p) k
  simp only [GoMap.get, removeAnnotationWithPrefix_entries]
  rw [h]
  by_cases hk : strings.HasPrefix k p = true <;> simp [hk]

theorem tolerations_eq_map (node : Node) :
    createCleanUpJob.tolerations node
      = node.Spec.InternalNodeSpec.Taints.map
          (fun taint => ({ Key := taint.Key, Operator := "Exists", Effect := taint.Effect } :
            Toleration)) := by
  have h : ∀ (ts : List Taint) (acc : List Toleration),
      ts.foldl (fun tolerations taint =>
          tolerations ++ [({ Effect := taint.Effect, Key := taint.Key, Operator := "Exists" } :
            Toleration)]) acc
        = acc ++ ts.map (fun taint =>
            ({ Key := taint.Key, Operator := "Exists", Effect := taint.Effect } : Toleration)) := by
    intro ts
    induction ts with
    | nil => intro acc; simp
    | cons t ts ih => intro acc; simp [List.foldl_cons, ih]
  simpa [createCleanUpJob.tolerations] using h node.Spec.InternalNodeSpec.Taints []

end node

/-! ## Draining, dispatching the job, deleting the node -/

namespace node

/-- C2, the code at the failing input: for a node that requires draining, with
the kubeconfig obtained and a drain tool that fails at every attempt,
`drainNode` makes its 3 attempts and then returns `wait.ErrWaitTimeout`, which
is not the nil error. -/
theorem drainNode_failing_drain_returns_ErrWaitTimeout :
    drainNode sampleLifecycle sampleNode
        = (some wait.ErrWaitTimeout,
            [Call.clusterGet "" "c-x1", Call.getNodePool "c-x1:np-1", Call.getKubeConfig "c-x1",
             Call.drain "worker-1" ["--force"] 60, Call.drain "worker-1" ["--force"] 60,
             Call.drain "worker-1" ["--force"] 60]) ∧
      (drainNode sampleLifecycle sampleNode).1 ≠ none := by
  constructor
  · rfl
  · decide

/-- C9: every job `createCleanUpJob` submits has one toleration per taint of
the node, in order, with the taint's Key and Effect and Operator "Exists" (no
taints, no tolerations), and has the node selector
{"kubernetes.io/hostname": node.Status.NodeName}; and whenever the cluster
lookup yields a cluster with its RKE configuration, such a job is submitted. -/
theorem createCleanUpJob_tolerations_and_selector (m : Lifecycle) (uc : UserContext)
    (node : Node) :
    (∀ ns job, Call.jobsCreate ns job ∈ (createCleanUpJob m uc node).2 →
        job.Template.Tolerations.length = node.Spec.InternalNodeSpec.Taints.length ∧
        job.Template.Tolerations
          = node.Spec.InternalNodeSpec.Taints.map
              (fun taint => ({ Key := taint.Key, Operator := "Exists", Effect := taint.Effect } :
                Toleration)) ∧
        job.Template.NodeSelector = [("kubernetes.io/hostname", node.Status.NodeName)]) ∧
      (∀ cluster rke, m.clusterGet "" node.Namespace = Except.ok cluster →
        cluster.RancherKubernetesEngineConfig = some rke →
        createCleanUpJob m uc node
          = (Outcome.returned (uc.jobsCreate "default" (createCleanUpJob.job m node rke)),
              [Call.clusterGet "" node.Namespace,
               Call.jobsCreate "default" (createCleanUpJob.job m node rke)])) := by
  have hjob : ∀ rke,
      (createCleanUpJob.job m node rke).Template.Tolerations.length
          = node.Spec.InternalNodeSpec.Taints.length ∧
        (createCleanUpJob.job m node rke).Template.Tolerations
          = node.Spec.InternalNodeSpec.Taints.map
              (fun taint => ({ Key := taint.Key, Operator := "Exists", Effect := taint.Effect } :
                Toleration)) ∧
        (createCleanUpJob.job m node rke).Template.NodeSelector
          = [("kubernetes.io/hostname", node.Status.NodeName)] := by
    intro rke
    refine ⟨?_, ?_, rfl⟩
    · show (createCleanUpJob.tolerations node).length = _
      rw [tolerations_eq_map, List.length_map]
    · exact tolerations_eq_map node
  have hsubmit : ∀ (cluster : Option Cluster) ns job,
      Call.jobsCreate ns job
          ∈ (createCleanUpJob.submit m uc node cluster [Call.clusterGet "" node.Namespace]).2 →
        ∃ rke, job = createCleanUpJob.job m node rke := by
    intro cluster ns job hmem
    unfold createCleanUpJob.submit at hmem
    cases hr : cluster.bind (fun c => c.RancherKubernetesEngineConfig) with
    | none => simp [hr] at hmem
    | some rke =>
      simp [hr] at hmem
      exact ⟨rke, hmem.2⟩
  constructor
  · intro ns job hmem
    unfold createCleanUpJob at hmem
    cases hc : m.clusterGet "" node.Namespace with
    | error err =>
      rw [hc] at hmem
      by_cases hnf : kerror.IsNotFound (some err) = true
      · simp only [hnf, Bool.not_true, Bool.false_eq_true, if_false] at hmem
        obtain ⟨rke, rfl⟩ := hsubmit none ns job hmem
        exact hjob rke
      · simp [hnf] at hmem
    | ok cluster =>
      rw [hc] at hmem
      obtain ⟨rke, rfl⟩ := hsubmit (some cluster) ns job hmem
      exact hjob rke
  · intro cluster rke hc hrke
    unfold createCleanUpJob
    rw [hc]
    simp [createCleanUpJob.submit, hrke]

/-- C9 at the sample node: two taints give two tolerations on the submitted job. -/
theorem createCleanUpJob_tolerations_and_selector_witness :
    createCleanUpJob sampleLifecycle pendingContext sampleNode
        = (Outcome.returned (pendingContext.jobsCreate "default"
              (createCleanUpJob.job sampleLifecycle sampleNode ⟨"", ""⟩)),
            [Call.clusterGet "" sampleNode.Namespace,
             Call.jobsCreate "default" (createCleanUpJob.job sampleLifecycle sampleNode ⟨"", ""⟩)]) ∧
      (createCleanUpJob.job sampleLifecycle sampleNode ⟨"", ""⟩).Template.Tolerations
        = [⟨"dedicated", "Exists", "NoSchedule"⟩,
           ⟨"node.kubernetes.io/unreachable", "Exists", "NoExecute"⟩] := by
  have h := createCleanUpJob_tolerations_and_selector sampleLifecycle pendingContext sampleNode
  have h2 := h.2 ⟨"c-x1", some ⟨"", ""⟩⟩ ⟨"", ""⟩ rfl rfl
  refine ⟨h2, ?_⟩
  have h1 := h.1 "default" (createCleanUpJob.job sampleLifecycle sampleNode ⟨"", ""⟩)
    (by rw [h2]; simp)
  rw [h1.2.1]
  rfl

/-- C10: `deleteV1Node` always returns the node it was given, and returns nil
when the node is ignored or `Status.NodeName` is empty (no call is issued),
when the user context is not found, when the delete reports not-found, when the
delete deadline has expired, and when the delete succeeds; in every other case
it returns exactly the underlying error, so that it returns an error if and
only if a control-plane call failed with something other than not-found or
deadline expiry. -/
theorem deleteV1Node_error_iff (m : Lifecycle) (node : Node) :
    (deleteV1Node m node).1.1 = node ∧
      (m.IgnoreNode node.Status.NodeName node.Status.NodeLabels = true →
        deleteV1Node m node = ((node, none), [])) ∧
      (node.Status.NodeName = "" → deleteV1Node m node = ((node, none), [])) ∧
      (∀ err, m.IgnoreNode node.Status.NodeName node.Status.NodeLabels = false →
        node.Status.NodeName ≠ "" → m.UserContext node.Namespace = Except.error err →
        (deleteV1Node m node).1.2 = (if err.notFound then none else some err) ∧
          (deleteV1Node m node).2 = [Call.userContext node.Namespace]) ∧
      (∀ uc, m.IgnoreNode node.Status.NodeName node.Status.NodeLabels = false →
        node.Status.NodeName ≠ "" → m.UserContext node.Namespace = Except.ok uc →
        (deleteV1Node m node).2
            = [Call.userContext node.Namespace, Call.nodesDelete node.Status.NodeName] ∧
          (kerror.IsNotFound (uc.nodesDelete node.Status.NodeName).err = true →
            (deleteV1Node m node).1.2 = none) ∧
          ((uc.nodesDelete node.Status.NodeName).ctxErr = some CtxErr.DeadlineExceeded →
            (deleteV1Node m node).1.2 = none) ∧
          ((uc.nodesDelete node.Status.NodeName).err = none →
            (deleteV1Node m node).1.2 = none) ∧
          (kerror.IsNotFound (uc.nodesDelete node.Status.NodeName).err = false →
            (uc.nodesDelete node.Status.NodeName).ctxErr ≠ some CtxErr.DeadlineExceeded →
            (deleteV1Node m node).1.2 = (uc.nodesDelete node.Status.NodeName).err)) ∧
      ((deleteV1Node m node).1.2 ≠ none ↔
        m.IgnoreNode node.Status.NodeName node.Status.NodeLabels = false ∧
          node.Status.NodeName ≠ "" ∧
          ((∃ err, m.UserContext node.Namespace = Except.error err ∧ err.notFound = false) ∨
           (∃ uc, m.UserContext node.Namespace = Except.ok uc ∧
              (uc.nodesDelete node.Status.NodeName).err ≠ none ∧
              kerror.IsNotFound (uc.nodesDelete node.Status.NodeName).err = false ∧
              (uc.nodesDelete node.Status.NodeName).ctxErr ≠ some CtxErr.DeadlineExceeded))) := by
  unfold deleteV1Node
  by_cases hi : m.IgnoreNode node.Status.NodeName node.Status.NodeLabels = true
  · simp [hi]
  · by_cases hn : node.Status.NodeName = ""
    · simp [hi, hn]
    · cases hu : m.UserContext node.Namespace with
      | error err =>
        by_cases hnf : err.notFound = true
        · simp [hi, hn, kerror.IsNotFound, hnf]
        · simp [hi, hn, kerror.IsNotFound, hnf]
      | ok uc =>
        by_cases h1 : kerror.IsNotFound (uc.nodesDelete node.Status.NodeName).err = true
        · simp [hi, hn, h1]
        · by_cases h2 : (uc.nodesDelete node.Status.NodeName).ctxErr
              = some CtxErr.DeadlineExceeded
          · simp [hi, hn, h1, h2]
          · simp [hi, hn, h1, h2]

/-- C10 at a refused delete and at a successful one: the refusal is returned as
it is, the success gives nil, and the node comes back unchanged. -/
theorem deleteV1Node_error_iff_witness :
    (deleteV1Node refusedDeleteLifecycle sampleNode).1.2 = some ⟨"nodes is forbidden", false⟩ ∧
      (deleteV1Node sampleLifecycle sampleNode).1.2 = none ∧
      (deleteV1Node sampleLifecycle sampleNode).2
        = [Call.userContext "c-x1", Call.nodesDelete "worker-1"] := by
  have h1 := (deleteV1Node_error_iff refusedDeleteLifecycle sampleNode).2.2.2.2.1
    refusedDeleteContext rfl (by decide) rfl
  have h2 := (deleteV1Node_error_iff sampleLifecycle sampleNode).2.2.2.2.1
    pendingContext rfl (by decide) rfl
  exact ⟨h1.2.2.2.2 rfl (by decide), h2.2.2.2.1 rfl, h2.1⟩

end node

/-! ## Marking the node: `userNodeRemoveCleanup` -/

namespace node

/-- The bindings of the annotation map `userNodeRemoveCleanup` builds: the marker
first, then the input bindings that survive the three deletions. -/
theorem newObj_annotations (c : Constants) (obj : Node) :
    ∃ a : GoMap, (userNodeRemoveCleanup.newObj c obj).Annotations = some a ∧
      a.entries = (c.userNodeRemoveCleanupAnnotation, "true") ::
        ((obj.Annotations.map GoMap.entries).getD []).filter (fun e =>
          !strings.HasPrefix e.1 c.userNodeRemoveAnnotationPrefix
            && decide (e.1 ≠ c.userNodeRemoveCleanupAnnotationOld)
            && decide (e.1 ≠ c.userNodeRemoveCleanupAnnotation)) := by
  cases ha : obj.Annotations with
  | none =>
    refine ⟨_, by simp only [userNodeRemoveCleanup.newObj, ha]; rfl, ?_⟩
    simp [GoMap.set, GoMap.delete, GoMap.empty]
  | some anns =>
    refine ⟨_, by simp only [userNodeRemoveCleanup.newObj, ha]; rfl, ?_⟩
    simp only [GoMap.set, GoMap.delete, removeAnnotationWithPrefix_entries, List.filter_filter,
      Option.map_some', Option.getD_some]
    congr 1
    apply List.filter_congr
    intro e _
    simp only [Bool.and_comm, Bool.and_left_comm, Bool.and_assoc]

theorem newObj_finalizers (c : Constants) (obj : Node) :
    (userNodeRemoveCleanup.newObj c obj).Finalizers
      = obj.Finalizers.filter (fun f => !strings.HasPrefix f c.userNodeRemoveFinalizerPrefix) := by
  simp only [userNodeRemoveCleanup.newObj, removeFinalizerWithPrefix_eq_filter]

theorem newObj_annotationAt (c : Constants) (obj : Node) (k : String) :
    (userNodeRemoveCleanup.newObj c obj).annotationAt k
      = if k = c.userNodeRemoveCleanupAnnotation then some "true"
        else if strings.HasPrefix k c.userNodeRemoveAnnotationPrefix = true
            ∨ k = c.userNodeRemoveCleanupAnnotationOld then none
        else obj.annotationAt k := by
  cases ha : obj.Annotations with
  | none =>
    simp only [Node.annotationAt, userNodeRemoveCleanup.newObj, ha, GoMap.get_set, GoMap.get_empty]
    by_cases h1 : k = c.userNodeRemoveCleanupAnnotation <;> simp [h1]
  | some anns =>
    simp only [Node.annotationAt, userNodeRemoveCleanup.newObj, ha, GoMap.get_set,
      GoMap.get_delete, get_removeAnnotationWithPrefix]
    by_cases h1 : k = c.userNodeRemoveCleanupAnnotation
    · simp [h1]
    · by_cases h2 : k = c.userNodeRemoveCleanupAnnotationOld
      · simp [h1, h2]
      · by_cases h3 : strings.HasPrefix k c.userNodeRemoveAnnotationPrefix = true
        · simp [h1, h2, h3]
        · simp [h1, h2, h3]

end node

theorem GoMap.get_eq_none_of_not_mem_keys (m : GoMap) (k : String) (h : k ∉ m.keys) :
    m.get k = none := by
  have : m.entries.find? (fun e => decide (e.1 = k)) = none := by
    rw [List.find?_eq_none]
    intro e he hk
    exact h (List.mem_map.2 ⟨e, he, by simpa using hk⟩)
  simp [GoMap.get, this]

namespace node

theorem Node.annotation_eq_none_of_not_mem (n : Node) (k : String)
    (h : k ∉ n.annotationKeys) : n.annotationAt k = none := by
  unfold Node.annotationAt
  unfold Node.annotationKeys at h
  cases ha : n.Annotations with
  | none => rfl
  | some a =>
    rw [ha] at h
    exact GoMap.get_eq_none_of_not_mem_keys a k h

theorem Node.eq_of_fields (a b : Node) (h1 : a.Name = b.Name) (h2 : a.Namespace = b.Namespace)
    (h3 : a.Finalizers = b.Finalizers) (h4 : a.Annotations = b.Annotations)
    (h5 : a.Spec = b.Spec) (h6 : a.Status = b.Status) : a = b := by
  cases a
  cases b
  simp_all

/-- C3, as stated, fails: `plainNode` carries no finalizer with the reserved
prefix, no annotation with the reserved prefix and no marker annotation, yet the
object handed to Update has the one finalizer of the input, not two, none of
them reserved, and one annotation like the input, not two. -/
theorem userNodeRemoveCleanup_adds_no_finalizer :
    (∀ f ∈ plainNode.Finalizers,
        strings.HasPrefix f upstreamConstants.userNodeRemoveFinalizerPrefix = false) ∧
      (∀ k ∈ plainNode.annotationKeys,
        strings.HasPrefix k upstreamConstants.userNodeRemoveAnnotationPrefix = false ∧
          k ≠ upstreamConstants.userNodeRemoveCleanupAnnotation) ∧
      (userNodeRemoveCleanup sampleLifecycle upstreamConstants plainNode).2
        = [Call.nodeUpdate (userNodeRemoveCleanup.newObj upstreamConstants plainNode)] ∧
      (userNodeRemoveCleanup.newObj upstreamConstants plainNode).Finalizers
        = ["controller.cattle.io/node-controller"] ∧
      (userNodeRemoveCleanup.newObj upstreamConstants plainNode).Finalizers.length
        ≠ plainNode.Finalizers.length + 1 ∧
      (userNodeRemoveCleanup.newObj upstreamConstants plainNode).annotationCount
        ≠ plainNode.annotationCount + 1 := by
  refine ⟨by decide, by decide, rfl, by decide, by decide, by decide⟩

/-- C3 as amended: for every node with no finalizer of the reserved prefix and
no annotation that has the reserved prefix, is the marker or is the old cleanup
annotation, the object handed to Update has the finalizers of the input (none is
added) and exactly one more annotation than the input, the marker with value
"true"; every other annotation is as in the input. -/
theorem userNodeRemoveCleanup_marks_unmarked (m : Lifecycle) (c : Constants) (obj : Node)
    (hf : ∀ f ∈ obj.Finalizers, strings.HasPrefix f c.userNodeRemoveFinalizerPrefix = false)
    (ha : ∀ k ∈ obj.annotationKeys,
      strings.HasPrefix k c.userNodeRemoveAnnotationPrefix = false ∧
        k ≠ c.userNodeRemoveCleanupAnnotation ∧ k ≠ c.userNodeRemoveCleanupAnnotationOld) :
    (userNodeRemoveCleanup m c obj).2 = [Call.nodeUpdate (userNodeRemoveCleanup.newObj c obj)] ∧
      (userNodeRemoveCleanup.newObj c obj).Finalizers = obj.Finalizers ∧
      (userNodeRemoveCleanup.newObj c obj).annotationCount = obj.annotationCount + 1 ∧
      (userNodeRemoveCleanup.newObj c obj).annotationAt c.userNodeRemoveCleanupAnnotation
        = some "true" ∧
      ∀ k, k ≠ c.userNodeRemoveCleanupAnnotation →
        (userNodeRemoveCleanup.newObj c obj).annotationAt k = obj.annotationAt k := by
  refine ⟨rfl, ?_, ?_, ?_, ?_⟩
  · rw [newObj_finalizers, List.filter_eq_self]
    intro f hmem
    simp [hf f hmem]
  · obtain ⟨a, h1, h2⟩ := newObj_annotations c obj
    have hkeep : ((obj.Annotations.map GoMap.entries).getD []).filter (fun e =>
          !strings.HasPrefix e.1 c.userNodeRemoveAnnotationPrefix
            && decide (e.1 ≠ c.userNodeRemoveCleanupAnnotationOld)
            && decide (e.1 ≠ c.userNodeRemoveCleanupAnnotation))
        = (obj.Annotations.map GoMap.entries).getD [] := by
      rw [List.filter_eq_self]
      intro e he
      have hk : e.1 ∈ obj.annotationKeys := by
        unfold Node.annotationKeys
        cases hA : obj.Annotations with
        | none => simp [hA] at he
        | some anns =>
          rw [hA] at he
          exact List.mem_map.2 ⟨e, by simpa using he, rfl⟩
      have := ha e.1 hk
      simp [this.1, this.2.1, this.2.2]
    rw [hkeep] at h2
    simp only [Node.annotationCount, h1, GoMap.len, h2, List.length_cons]
    cases obj.Annotations <;> simp
  · rw [newObj_annotationAt]
    simp
  · intro k hk
    rw [newObj_annotationAt, if_neg hk]
    by_cases hr : strings.HasPrefix k c.userNodeRemoveAnnotationPrefix = true
        ∨ k = c.userNodeRemoveCleanupAnnotationOld
    · rw [if_pos hr]
      symm
      apply Node.annotation_eq_none_of_not_mem
      intro hmem
      have := ha k hmem
      rcases hr with hr | hr
      · rw [this.1] at hr
        exact Bool.false_ne_true hr
      · exact this.2.2 hr
    · rw [if_neg hr]

/-- C3 as amended, at `freshNode`: its one finalizer is kept and the marker is
added to its one annotation. -/
theorem userNodeRemoveCleanup_marks_unmarked_witness :
    (userNodeRemoveCleanup.newObj upstreamConstants freshNode).Finalizers = freshNode.Finalizers ∧
      (userNodeRemoveCleanup.newObj upstreamConstants freshNode).annotationCount
        = freshNode.annotationCount + 1 ∧
      (userNodeRemoveCleanup.newObj upstreamConstants freshNode).annotationAt
          "cleanup.cattle.io/user-node-remove" = some "true" := by
  have h := userNodeRemoveCleanup_marks_unmarked sampleLifecycle upstreamConstants freshNode
    (by decide) (by decide)
  exact ⟨h.2.1, h.2.2.1, h.2.2.2.1⟩

/-- C4: for every node, also one with a nil annotation map or already marked,
the object handed to Update has as finalizers exactly the input finalizers that
do not start with `userNodeRemoveFinalizerPrefix`, in their order, so none with
that prefix; its annotation map binds `userNodeRemoveCleanupAnnotation` to
"true", binds no other key that starts with `userNodeRemoveAnnotationPrefix` or
is `userNodeRemoveCleanupAnnotationOld`, and binds every remaining key as the
input does; the rest of the object is the input's. -/
theorem userNodeRemoveCleanup_newObj_exact (m : Lifecycle) (c : Constants) (obj : Node) :
    (userNodeRemoveCleanup m c obj).2 = [Call.nodeUpdate (userNodeRemoveCleanup.newObj c obj)] ∧
      (userNodeRemoveCleanup m c obj).1 = m.nodeUpdate (userNodeRemoveCleanup.newObj c obj) ∧
      (userNodeRemoveCleanup.newObj c obj).Finalizers
        = obj.Finalizers.filter
            (fun f => !strings.HasPrefix f c.userNodeRemoveFinalizerPrefix) ∧
      (∀ f ∈ (userNodeRemoveCleanup.newObj c obj).Finalizers,
        strings.HasPrefix f c.userNodeRemoveFinalizerPrefix = false) ∧
      (∀ k, (userNodeRemoveCleanup.newObj c obj).annotationAt k
        = if k = c.userNodeRemoveCleanupAnnotation then some "true"
          else if strings.HasPrefix k c.userNodeRemoveAnnotationPrefix = true
              ∨ k = c.userNodeRemoveCleanupAnnotationOld then none
          else obj.annotationAt k) ∧
      (userNodeRemoveCleanup.newObj c obj).Annotations ≠ none ∧
      (userNodeRemoveCleanup.newObj c obj).Name = obj.Name ∧
      (userNodeRemoveCleanup.newObj c obj).Namespace = obj.Namespace ∧
      (userNodeRemoveCleanup.newObj c obj).Spec = obj.Spec ∧
      (userNodeRemoveCleanup.newObj c obj).Status = obj.Status := by
  refine ⟨rfl, rfl, newObj_finalizers c obj, ?_, newObj_annotationAt c obj, ?_, rfl, rfl, rfl, rfl⟩
  · intro f hmem
    rw [newObj_finalizers] at hmem
    simpa using (List.mem_filter.1 hmem).2
  · obtain ⟨a, h1, _⟩ := newObj_annotations c obj
    rw [h1]
    simp

/-- C5: `userNodeRemoveCleanup` is idempotent on the object it builds: built
from its own result, the object is the same (same finalizer list, same
annotation map, same everything else); and for every prefix
`removeFinalizerWithPrefix` and `removeAnnotationWithPrefix` are idempotent. -/
theorem userNodeRemoveCleanup_idempotent (c : Constants) (obj : Node) (p : String)
    (fs : List String) (anns : GoMap) :
    userNodeRemoveCleanup.newObj c (userNodeRemoveCleanup.newObj c obj)
        = userNodeRemoveCleanup.newObj c obj ∧
      removeFinalizerWithPrefix (removeFinalizerWithPrefix fs p) p
        = removeFinalizerWithPrefix fs p ∧
      removeAnnotationWithPrefix (removeAnnotationWithPrefix anns p) p
        = removeAnnotationWithPrefix anns p := by
  refine ⟨?_, ?_, ?_⟩
  · refine Node.eq_of_fields _ _ rfl rfl ?_ ?_ rfl rfl
    · rw [newObj_finalizers, newObj_finalizers, List.filter_filter]
      apply List.filter_congr
      intro f _
      simp
    · obtain ⟨a1, h1, e1⟩ := newObj_annotations c obj
      obtain ⟨a2, h2, e2⟩ := newObj_annotations c (userNodeRemoveCleanup.newObj c obj)
      rw [h2, h1]
      congr 1
      apply GoMap.ext_entries
      rw [e2, h1, e1]
      simp only [Option.map_some', Option.getD_some, e1]
      congr 1
      rw [List.filter_cons]
      simp only [ne_eq, not_true_eq_false, decide_False, Bool.and_false, Bool.false_eq_true,
        if_false, List.filter_filter, Bool.and_self]
  · rw [removeFinalizerWithPrefix_eq_filter, removeFinalizerWithPrefix_eq_filter,
      List.filter_filter]
    apply List.filter_congr
    intro f _
    simp
  · apply GoMap.ext_entries
    rw [removeAnnotationWithPrefix_entries, removeAnnotationWithPrefix_entries,
      List.filter_filter]
    apply List.filter_congr
    intro e _
    simp

end node

/-! ## The agent: duplicate guard and order of the cleanup steps -/

namespace clean

theorem any_name_iff (containerList : List Container) :
    containerList.any (fun c => c.Names.any (fun n => decide (n = "/" ++ ContainerName))) = true
      ↔ ∃ c ∈ containerList, "/cattle-node-cleanup" ∈ c.Names := by
  have hname : "/" ++ ContainerName = "/cattle-node-cleanup" := by decide
  rw [hname]
  simp only [List.any_eq_true, decide_eq_true_eq]
  constructor
  · rintro ⟨c, hc, n, hn, rfl⟩
    exact ⟨c, hc, hn⟩
  · rintro ⟨c, hc, hn⟩
    exact ⟨c, hc, _, hn, rfl⟩

/-- C7, as stated, fails: the engine of `noCreateHost` lists no container named
"/cattle-node-cleanup", yet `Job` creates no container and starts none: the
create request is refused, `Job` returns that error and issues no start. -/
theorem Job_create_refused_starts_nothing :
    noCreateHost.ContainerList 0 = Except.ok [⟨"4f1c", ["/registry"]⟩] ∧
      (∀ c ∈ [(⟨"4f1c", ["/registry"]⟩ : Container)], "/cattle-node-cleanup" ∉ c.Names) ∧
      Job noCreateHost
        = (some ⟨"No such image: rancher/rancher-agent:master", false⟩,
            [Call.NewClient, Call.ContainerList,
             Call.ContainerCreate (Job.config noCreateHost) Job.hostConfig "cattle-node-cleanup",
             Call.Close]) ∧
      (∀ c ∈ (Job noCreateHost).2, ∀ id, c ≠ Call.ContainerStart id) := by
  have hjob : Job noCreateHost
      = (some ⟨"No such image: rancher/rancher-agent:master", false⟩,
          [Call.NewClient, Call.ContainerList,
           Call.ContainerCreate (Job.config noCreateHost) Job.hostConfig "cattle-node-cleanup",
           Call.Close]) := by
    rfl
  refine ⟨rfl, by decide, hjob, ?_⟩
  rw [hjob]
  intro c hc id
  simp only [List.mem_cons, List.mem_singleton, List.not_mem_nil, or_false] at hc
  rcases hc with rfl | rfl | rfl | rfl <;> simp

/-- C7 as amended: for every container list the engine returns, if some
container has the name "/cattle-node-cleanup" then `Job` returns nil and issues
no create and no start; if none has, `Job` issues exactly one create request,
for a container named cattle-node-cleanup; when the create succeeds `Job` starts
the created container, once, and returns what the start returns; when the
create fails `Job` returns that error and starts nothing. -/
theorem Job_duplicate_guard (h : Host) (containerList : List Container)
    (hclient : h.NewClient = none) (hlist : h.ContainerList 0 = Except.ok containerList) :
    ((∃ c ∈ containerList, "/cattle-node-cleanup" ∈ c.Names) →
        Job h = (none, [Call.NewClient, Call.ContainerList, Call.Close])) ∧
      ((∀ c ∈ containerList, "/cattle-node-cleanup" ∉ c.Names) →
        (∀ id, h.ContainerCreate (Job.config h) Job.hostConfig "cattle-node-cleanup"
              = Except.ok id →
            Job h = (h.ContainerStart id,
              [Call.NewClient, Call.ContainerList,
               Call.ContainerCreate (Job.config h) Job.hostConfig "cattle-node-cleanup",
               Call.ContainerStart id, Call.Close])) ∧
        (∀ err, h.ContainerCreate (Job.config h) Job.hostConfig "cattle-node-cleanup"
              = Except.error err →
            Job h = (some err,
              [Call.NewClient, Call.ContainerList,
               Call.ContainerCreate (Job.config h) Job.hostConfig "cattle-node-cleanup",
               Call.Close]))) := by
  have hname : ContainerName = "cattle-node-cleanup" := rfl
  constructor
  · intro hex
    have hany := (any_name_iff containerList).2 hex
    unfold Job
    simp only [hclient, hlist]
    rw [if_pos hany]
    rfl
  · intro hno
    have hany : ¬ containerList.any
        (fun c => c.Names.any (fun n => decide (n = "/" ++ ContainerName))) = true := by
      intro hany
      obtain ⟨c, hc, hn⟩ := (any_name_iff containerList).1 hany
      exact hno c hc hn
    constructor
    · intro id hcreate
      unfold Job
      simp only [hclient, hlist]
      rw [if_neg hany]
      simp only [hname, hcreate]
      rfl
    · intro err hcreate
      unfold Job
      simp only [hclient, hlist]
      rw [if_neg hany]
      simp only [hname, hcreate]
      rfl

/-- C7 as amended, at a host where the cleanup container exists and at one where
it does not. -/
theorem Job_duplicate_guard_witness :
    Job busyHost = (none, [Call.NewClient, Call.ContainerList, Call.Close]) ∧
      Job quietHost = (none,
        [Call.NewClient, Call.ContainerList,
         Call.ContainerCreate (Job.config quietHost) Job.hostConfig "cattle-node-cleanup",
         Call.ContainerStart "9b7e", Call.Close]) := by
  constructor
  · exact (Job_duplicate_guard busyHost
      [⟨"4f1c", ["/registry"]⟩, ⟨"77aa", ["/cattle-node-cleanup"]⟩] rfl rfl).1 (by decide)
  · exact ((Job_duplicate_guard quietHost [⟨"4f1c", ["/registry"]⟩] rfl rfl).2
      (by decide)).1 "9b7e" rfl

/-- The loop of `waitForK8sPods` only adds listings and sleeps to the log. -/
theorem waitForK8sPods_loop_calls (h : Host) (n : Nat) :
    ∀ log : List Call, ∃ W : List Call,
      (waitForK8sPods.loop h n log).2 = log ++ W ∧
        ∀ c ∈ W, c = Call.ContainerList ∨ c = Call.Sleep 10 := by
  induction n with
  | zero =>
    intro log
    exact ⟨[], by simp [waitForK8sPods.loop], by simp⟩
  | succ n ih =>
    intro log
    unfold waitForK8sPods.loop
    cases hl : h.ContainerList (listings log) with
    | error err => exact ⟨[Call.ContainerList], rfl, by simp⟩
    | ok containerList =>
      by_cases hp : waitForK8sPods.hasPods containerList = true
      · obtain ⟨W, hW, hall⟩ := ih (log ++ [Call.ContainerList] ++ [Call.Sleep 10])
        refine ⟨[Call.ContainerList, Call.Sleep 10] ++ W, ?_, ?_⟩
        · simp only [hp, if_true]
          rw [hW]
          simp
        · intro c hc
          rcases List.mem_append.1 hc with hc | hc
          · simp only [List.mem_cons, List.mem_singleton, List.not_mem_nil, or_false] at hc
            exact hc
          · exact hall c hc
      · refine ⟨[Call.ContainerList], ?_, by simp⟩
        simp only [hp, Bool.false_eq_true, if_false]

/-- The loop of `stopContainers` only adds inspections and kills to the log. -/
theorem stopContainers_loop_calls (h : Host) (containers : List Container) :
    ∀ log : List Call, ∃ S : List Call,
      (stopContainers.loop h containers log).2 = log ++ S ∧
        ∀ c ∈ S, (∃ id, c = Call.ContainerInspect id) ∨ (∃ id, c = Call.ContainerKill id "SIGKILL") := by
  induction containers with
  | nil =>
    intro log
    exact ⟨[], by simp [stopContainers.loop], by simp⟩
  | cons container rest ih =>
    intro log
    unfold stopContainers.loop
    cases hi : h.ContainerInspect container.ID with
    | error err => exact ⟨[Call.ContainerInspect container.ID], rfl, by simp⟩
    | ok config =>
      by_cases hp : strings.HasPrefix config.Image "rancher/" = true
      · cases hk : h.ContainerKill config.ID "SIGKILL" with
        | some err =>
          refine ⟨[Call.ContainerInspect container.ID, Call.ContainerKill config.ID "SIGKILL"],
            ?_, by simp⟩
          simp [hp, hk]
        | none =>
          obtain ⟨S, hS, hall⟩ := ih (log ++ [Call.ContainerInspect container.ID]
            ++ [Call.ContainerKill config.ID "SIGKILL"])
          refine ⟨[Call.ContainerInspect container.ID, Call.ContainerKill config.ID "SIGKILL"]
            ++ S, ?_, ?_⟩
          · simp only [hp, if_true, hk]
            rw [hS]
            simp
          · intro c hc
            rcases List.mem_append.1 hc with hc | hc
            · simp only [List.mem_cons, List.mem_singleton, List.not_mem_nil, or_false] at hc
              rcases hc with rfl | rfl
              · exact Or.inl ⟨_, rfl⟩
              · exact Or.inr ⟨_, rfl⟩
            · exact hall c hc
      · obtain ⟨S, hS, hall⟩ := ih (log ++ [Call.ContainerInspect container.ID])
        refine ⟨[Call.ContainerInspect container.ID] ++ S, ?_, ?_⟩
        · simp only [hp, Bool.false_eq_true, if_false]
          rw [hS]
          simp
        · intro c hc
          rcases List.mem_append.1 hc with hc | hc
          · simp only [List.mem_singleton] at hc
            exact Or.inl ⟨_, hc⟩
          · exact hall c hc

/-- `stopContainers` adds one listing, then inspections and kills. -/
theorem stopContainers_calls (h : Host) (log : List Call) :
    ∃ S : List Call, (stopContainers h log).2 = log ++ S ∧
      ∀ c ∈ S, c = Call.ContainerList ∨ (∃ id, c = Call.ContainerInspect id)
        ∨ (∃ id, c = Call.ContainerKill id "SIGKILL") := by
  unfold stopContainers
  cases hl : h.ContainerList (listings log) with
  | error err => exact ⟨[Call.ContainerList], rfl, by simp⟩
  | ok containers =>
    obtain ⟨S, hS, hall⟩ := stopContainers_loop_calls h containers (log ++ [Call.ContainerList])
    refine ⟨[Call.ContainerList] ++ S, ?_, ?_⟩
    · simp only []
      rw [hS]
      simp
    · intro c hc
      rcases List.mem_append.1 hc with hc | hc
      · simp only [List.mem_singleton] at hc
        exact Or.inl hc
      · exact Or.inr (hall c hc)

/-- C8, as stated, fails: on `quietHost` every step succeeds and `Node` runs the
Docker task of the helper before the Network task, not after it. -/
theorem Node_runs_Docker_before_Network :
    Node quietHost
        = (none,
            [Call.NewClient, Call.WriteFile "c:\\host\\/etc/rancher/cleanup.ps1" 0o777,
             Call.ContainerList, Call.ContainerList, Call.ContainerInspect "4f1c",
             Call.Run "wins.exe" (createWinsArgs quietHost "Paths"),
             Call.Run "wins.exe" (createWinsArgs quietHost "Docker"),
             Call.Run "wins.exe" (createWinsArgs quietHost "Network"),
             Call.Run "wins.exe" (createWinsArgs quietHost "Firewall"),
             Call.Close]) ∧
      (Node quietHost).2.indexOf (Call.Run "wins.exe" (createWinsArgs quietHost "Docker")) = 6 ∧
      (Node quietHost).2.indexOf (Call.Run "wins.exe" (createWinsArgs quietHost "Network")) = 7 ∧
      ¬ ((Node quietHost).2.indexOf (Call.Run "wins.exe" (createWinsArgs quietHost "Network"))
          < (Node quietHost).2.indexOf (Call.Run "wins.exe" (createWinsArgs quietHost "Docker"))) := by
  refine ⟨by rfl, by decide, by decide, by decide⟩

/-- C8 as amended: when every step succeeds, `Node` returns nil and its calls
are, in this order: the script is written to the host; then the calls of
`waitForK8sPods` (listings and sleeps); then the calls of `stopContainers` run
after them (a listing, then inspections and kills); then the helper runs the
tasks Paths, Docker, Network and Firewall: the log of `Node` is the log of
`stopContainers` after `waitForK8sPods` followed by these four runs, so the
Docker task runs before the Network task. -/
theorem Node_step_order (h : Host)
    (hclient : h.NewClient = none)
    (hwrite : h.WriteFile (strings.Replace1 (getScriptPath h) "c:\\" "c:\\host\\") = none)
    (hwait : (waitForK8sPods h
      [Call.NewClient,
       Call.WriteFile (strings.Replace1 (getScriptPath h) "c:\\" "c:\\host\\") 0o777]).1 = none)
    (hstop : (stopContainers h (waitForK8sPods h
      [Call.NewClient,
       Call.WriteFile (strings.Replace1 (getScriptPath h) "c:\\" "c:\\host\\") 0o777]).2).1 = none)
    (hrun : ∀ cmd ∈ ["Paths", "Docker", "Network", "Firewall"],
      h.Run "wins.exe" (createWinsArgs h cmd) = none) :
    (Node h).1 = none ∧
      (Node h).2
        = (stopContainers h (waitForK8sPods h
            [Call.NewClient,
             Call.WriteFile (strings.Replace1 (getScriptPath h) "c:\\" "c:\\host\\") 0o777]).2).2
          ++ [Call.Run "wins.exe" (createWinsArgs h "Paths"),
              Call.Run "wins.exe" (createWinsArgs h "Docker"),
              Call.Run "wins.exe" (createWinsArgs h "Network"),
              Call.Run "wins.exe" (createWinsArgs h "Firewall"),
              Call.Close] ∧
      ∃ W S : List Call,
        (waitForK8sPods h
            [Call.NewClient,
             Call.WriteFile (strings.Replace1 (getScriptPath h) "c:\\" "c:\\host\\") 0o777]).2
          = [Call.NewClient,
             Call.WriteFile (strings.Replace1 (getScriptPath h) "c:\\" "c:\\host\\") 0o777]
            ++ W ∧
        (stopContainers h
            ([Call.NewClient,
              Call.WriteFile (strings.Replace1 (getScriptPath h) "c:\\" "c:\\host\\") 0o777]
              ++ W)).2
          = [Call.NewClient,
             Call.WriteFile (strings.Replace1 (getScriptPath h) "c:\\" "c:\\host\\") 0o777]
            ++ W ++ S ∧
        (∀ c ∈ W, c = Call.ContainerList ∨ c = Call.Sleep 10) ∧
        (∀ c ∈ S, c = Call.ContainerList ∨ (∃ id, c = Call.ContainerInspect id)
          ∨ (∃ id, c = Call.ContainerKill id "SIGKILL")) ∧
        (Node h).2
          = [Call.NewClient,
             Call.WriteFile (strings.Replace1 (getScriptPath h) "c:\\" "c:\\host\\") 0o777]
            ++ W ++ S
            ++ [Call.Run "wins.exe" (createWinsArgs h "Paths"),
                Call.Run "wins.exe" (createWinsArgs h "Docker"),
                Call.Run "wins.exe" (createWinsArgs h "Network"),
                Call.Run "wins.exe" (createWinsArgs h "Firewall"),
                Call.Close] := by
  obtain ⟨W, hW, hWall⟩ := waitForK8sPods_loop_calls h 30
    [Call.NewClient,
     Call.WriteFile (strings.Replace1 (getScriptPath h) "c:\\" "c:\\host\\") 0o777]
  have hw : waitForK8sPods h
      [Call.NewClient,
       Call.WriteFile (strings.Replace1 (getScriptPath h) "c:\\" "c:\\host\\") 0o777]
      = (none, [Call.NewClient,
          Call.WriteFile (strings.Replace1 (getScriptPath h) "c:\\" "c:\\host\\") 0o777] ++ W) :=
    Prod.ext hwait hW
  rw [hw] at hstop
  obtain ⟨S, hS, hSall⟩ := stopContainers_calls h ([Call.NewClient,
    Call.WriteFile (strings.Replace1 (getScriptPath h) "c:\\" "c:\\host\\") 0o777] ++ W)
  have hs : stopContainers h ([Call.NewClient,
      Call.WriteFile (strings.Replace1 (getScriptPath h) "c:\\" "c:\\host\\") 0o777] ++ W)
      = (none, [Call.NewClient,
          Call.WriteFile (strings.Replace1 (getScriptPath h) "c:\\" "c:\\host\\") 0o777]
          ++ W ++ S) :=
    Prod.ext hstop hS
  have hPaths := hrun "Paths" (by simp)
  have hDocker := hrun "Docker" (by simp)
  have hNetwork := hrun "Network" (by simp)
  have hFirewall := hrun "Firewall" (by simp)
  have hnode : Node h = (none,
      [Call.NewClient,
       Call.WriteFile (strings.Replace1 (getScriptPath h) "c:\\" "c:\\host\\") 0o777]
      ++ W ++ S
      ++ [Call.Run "wins.exe" (createWinsArgs h "Paths"),
          Call.Run "wins.exe" (createWinsArgs h "Docker"),
          Call.Run "wins.exe" (createWinsArgs h "Network"),
          Call.Run "wins.exe" (createWinsArgs h "Firewall"),
          Call.Close]) := by
    unfold Node
    simp only [hclient]
    unfold Node.steps
    simp only [hwrite, List.singleton_append, List.cons_append, List.nil_append] at hw hs ⊢
    simp only [hw, hs, Paths, cleanDocker, Links, Firewall, runWins, hPaths, hDocker, hNetwork,
      hFirewall]
    simp
  refine ⟨by rw [hnode], ?_, W, S, by rw [hw], by rw [hs], hWall, hSall, by rw [hnode]⟩
  rw [hnode, hw, hs]

/-- C8 as amended, at `quietHost`: the script is written, one listing finds no
pod, `stopContainers` lists and inspects the one container, and the helper runs
Paths, Docker, Network, Firewall. -/
theorem Node_step_order_witness :
    (Node quietHost).1 = none ∧
      (stopContainers quietHost (waitForK8sPods quietHost
          [Call.NewClient, Call.WriteFile "c:\\host\\/etc/rancher/cleanup.ps1" 0o777]).2).2
        = [Call.NewClient, Call.WriteFile "c:\\host\\/etc/rancher/cleanup.ps1" 0o777,
           Call.ContainerList, Call.ContainerList, Call.ContainerInspect "4f1c"] ∧
      (Node quietHost).2
        = [Call.NewClient, Call.WriteFile "c:\\host\\/etc/rancher/cleanup.ps1" 0o777,
           Call.ContainerList, Call.ContainerList, Call.ContainerInspect "4f1c"]
          ++ [Call.Run "wins.exe" (createWinsArgs quietHost "Paths"),
              Call.Run "wins.exe" (createWinsArgs quietHost "Docker"),
              Call.Run "wins.exe" (createWinsArgs quietHost "Network"),
              Call.Run "wins.exe" (createWinsArgs quietHost "Firewall"),
              Call.Close] := by
  have h := Node_step_order quietHost rfl rfl (by rfl) (by rfl) (fun _ _ => rfl)
  have hlog : (stopContainers quietHost (waitForK8sPods quietHost
      [Call.NewClient, Call.WriteFile "c:\\host\\/etc/rancher/cleanup.ps1" 0o777]).2).2
      = [Call.NewClient, Call.WriteFile "c:\\host\\/etc/rancher/cleanup.ps1" 0o777,
         Call.ContainerList, Call.ContainerList, Call.ContainerInspect "4f1c"] := by
    rfl
  refine ⟨h.1, hlog, ?_⟩
  rw [h.2.1]
  exact congrArg (fun l => l ++ _) hlog

end clean

/-! ## Dispatching the job when the cluster is gone -/

namespace node

/-- A not-found answer of the cluster lookup makes `createCleanUpJob` panic
before it submits anything. -/
theorem createCleanUpJob_of_not_found (m : Lifecycle) (uc : UserContext) (node : Node)
    (err : Error) (hget : m.clusterGet "" node.Namespace = Except.error err)
    (hnf : err.notFound = true) :
    createCleanUpJob m uc node = (Outcome.panic, [Call.clusterGet "" node.Namespace]) := by
  unfold createCleanUpJob
  rw [hget]
  simp [kerror.IsNotFound, hnf, createCleanUpJob.submit]

/-- C12, the code at the failing input: when the cluster lookup inside
`createCleanUpJob` reports not-found, the function does not return: it panics
on the nil cluster, after the lookup and before any job is submitted, and the
panic goes through `cleanNode`. -/
theorem createCleanUpJob_panics_on_missing_cluster :
    orphanLifecycle.clusterGet "" sampleNode.Namespace
        = Except.error ⟨"cluster.management.cattle.io not found", true⟩ ∧
      createCleanUpJob orphanLifecycle pendingContext sampleNode
        = (Outcome.panic, [Call.clusterGet "" "c-x1"]) ∧
      cleanNode orphanLifecycle sampleNode
        = (Outcome.panic, [Call.userContext "c-x1", Call.clusterGet "" "c-x1"]) := by
  have h := createCleanUpJob_of_not_found orphanLifecycle pendingContext sampleNode
    ⟨"cluster.management.cattle.io not found", true⟩ rfl rfl
  refine ⟨rfl, h, ?_⟩
  rfl

end node

/-! ## The agent: waiting for the pods -/

namespace clean

theorem hasPods_names (names : List String) (init : Bool) :
    names.foldl (fun hasPods n => if strings.HasPrefix n "/k8s_" then true else hasPods) init
      = (init || names.any (fun n => strings.HasPrefix n "/k8s_")) := by
  induction names generalizing init with
  | nil => simp
  | cons n names ih =>
    rw [List.foldl_cons, ih]
    by_cases hn : strings.HasPrefix n "/k8s_" = true
    · simp [hn]
    · simp [hn]

theorem hasPods_eq_any (containerList : List Container) :
    waitForK8sPods.hasPods containerList
      = containerList.any (fun c => c.Names.any (fun n => strings.HasPrefix n "/k8s_")) := by
  have h : ∀ (cs : List Container) (init : Bool),
      cs.foldl
          (fun hasPods c =>
            let hasPods := c.Names.foldl
              (fun hasPods n => if strings.HasPrefix n "/k8s_" then true else hasPods) hasPods
            if hasPods then hasPods else hasPods)
          init
        = (init || cs.any (fun c => c.Names.any (fun n => strings.HasPrefix n "/k8s_"))) := by
    intro cs
    induction cs with
    | nil => intro init; simp
    | cons c cs ih =>
      intro init
      rw [List.foldl_cons, ih]
      simp only [ite_self, hasPods_names]
      simp [Bool.or_assoc]
  simpa [waitForK8sPods.hasPods] using h containerList false

theorem hasPods_iff (containerList : List Container) :
    waitForK8sPods.hasPods containerList = true ↔ HasK8sPods containerList := by
  rw [hasPods_eq_any]
  simp [HasK8sPods, List.any_eq_true]

theorem listings_append_list (log : List Call) :
    listings (log ++ [Call.ContainerList]) = listings log + 1 := by
  simp [listings, List.count_append]

theorem listings_append_round (log : List Call) :
    listings (log ++ [Call.ContainerList] ++ [Call.Sleep 10]) = listings log + 1 := by
  simp [listings, List.count_append, List.count_cons]

/-- The loop lists at most as often as it has rounds left. -/
theorem waitForK8sPods_loop_listings (h : Host) (n : Nat) :
    ∀ log : List Call, listings (waitForK8sPods.loop h n log).2 ≤ listings log + n := by
  induction n with
  | zero => intro log; simp [waitForK8sPods.loop]
  | succ n ih =>
    intro log
    unfold waitForK8sPods.loop
    cases hl : h.ContainerList (listings log) with
    | error err =>
      simp only []
      rw [listings_append_list]
      omega
    | ok containerList =>
      by_cases hp : waitForK8sPods.hasPods containerList = true
      · simp only [hp, if_true]
        have := ih (log ++ [Call.ContainerList] ++ [Call.Sleep 10])
        rw [listings_append_round] at this
        omega
      · simp only [hp, Bool.false_eq_true, if_false]
        rw [listings_append_list]
        omega

/-- With pods found at each of the next `n` listings, the loop runs its `n`
rounds and returns nil. -/
theorem waitForK8sPods_loop_always (h : Host) (n : Nat) :
    ∀ log : List Call,
      (∀ i, i < n → ∃ cs, h.ContainerList (listings log + i) = Except.ok cs ∧ HasK8sPods cs) →
      waitForK8sPods.loop h n log = (none, log ++ waitForK8sPods.rounds n) := by
  induction n with
  | zero => intro log _; simp [waitForK8sPods.loop, waitForK8sPods.rounds]
  | succ n ih =>
    intro log hall
    obtain ⟨cs, hcs, hpods⟩ := hall 0 (Nat.succ_pos n)
    rw [Nat.add_zero] at hcs
    have hp := (hasPods_iff cs).2 hpods
    unfold waitForK8sPods.loop
    simp only [hcs, hp, if_true]
    rw [ih (log ++ [Call.ContainerList] ++ [Call.Sleep 10]) (by
      intro i hi
      rw [listings_append_round]
      have := hall (i + 1) (by omega)
      rwa [show listings log + 1 + i = listings log + (i + 1) by omega])]
    simp [waitForK8sPods.rounds]

/-- With pods found at the next `j` listings and `j` within the rounds left, the
loop ends at the listing after them: with nil when that one shows no pod, with
the error when it fails. -/
theorem waitForK8sPods_loop_first (h : Host) (j : Nat) :
    ∀ (n : Nat) (log : List Call), j < n →
      (∀ i, i < j → ∃ cs, h.ContainerList (listings log + i) = Except.ok cs ∧ HasK8sPods cs) →
      (∀ cs, h.ContainerList (listings log + j) = Except.ok cs → ¬ HasK8sPods cs →
        waitForK8sPods.loop h n log
          = (none, log ++ waitForK8sPods.rounds j ++ [Call.ContainerList])) ∧
      (∀ err, h.ContainerList (listings log + j) = Except.error err →
        waitForK8sPods.loop h n log
          = (some err, log ++ waitForK8sPods.rounds j ++ [Call.ContainerList])) := by
  induction j with
  | zero =>
    intro n log hn _
    obtain ⟨n, rfl⟩ : ∃ k, n = k + 1 := ⟨n - 1, by omega⟩
    constructor
    · intro cs hcs hno
      rw [Nat.add_zero] at hcs
      have hp : ¬ waitForK8sPods.hasPods cs = true := fun hp => hno ((hasPods_iff cs).1 hp)
      unfold waitForK8sPods.loop
      simp [hcs, hp, waitForK8sPods.rounds]
    · intro err herr
      rw [Nat.add_zero] at herr
      unfold waitForK8sPods.loop
      simp [herr, waitForK8sPods.rounds]
  | succ j ih =>
    intro n log hn hall
    obtain ⟨n, rfl⟩ : ∃ k, n = k + 1 := ⟨n - 1, by omega⟩
    obtain ⟨cs0, hcs0, hpods0⟩ := hall 0 (Nat.succ_pos j)
    rw [Nat.add_zero] at hcs0
    have hp0 := (hasPods_iff cs0).2 hpods0
    have hstep := ih n (log ++ [Call.ContainerList] ++ [Call.Sleep 10]) (by omega) (by
      intro i hi
      rw [listings_append_round]
      have := hall (i + 1) (by omega)
      rwa [show listings log + 1 + i = listings log + (i + 1) by omega])
    rw [listings_append_round,
      show listings log + 1 + j = listings log + (j + 1) by omega] at hstep
    constructor
    · intro cs hcs hno
      unfold waitForK8sPods.loop
      simp only [hcs0, hp0, if_true]
      rw [hstep.1 cs hcs hno]
      simp [waitForK8sPods.rounds]
    · intro err herr
      unfold waitForK8sPods.loop
      simp only [hcs0, hp0, if_true]
      rw [hstep.2 err herr]
      simp [waitForK8sPods.rounds]

/-- C11: `waitForK8sPods` lists the containers at most 30 times; the flag it
computes from a listing is true exactly when some container has some name that
starts with "/k8s_"; it returns nil at the first listing that shows no such
container, and returns the error of the first listing that fails, in both cases
without a further listing; and when all 30 listings show pods it returns nil
after the 30th round. -/
theorem waitForK8sPods_intended (h : Host) (log : List Call) :
    listings (waitForK8sPods h log).2 ≤ listings log + 30 ∧
      (∀ containerList, waitForK8sPods.hasPods containerList = true ↔ HasK8sPods containerList) ∧
      (∀ j, j < 30 →
        (∀ i, i < j →
          ∃ cs, h.ContainerList (listings log + i) = Except.ok cs ∧ HasK8sPods cs) →
        (∀ cs, h.ContainerList (listings log + j) = Except.ok cs → ¬ HasK8sPods cs →
          waitForK8sPods h log
            = (none, log ++ waitForK8sPods.rounds j ++ [Call.ContainerList])) ∧
        (∀ err, h.ContainerList (listings log + j) = Except.error err →
          waitForK8sPods h log
            = (some err, log ++ waitForK8sPods.rounds j ++ [Call.ContainerList]))) ∧
      ((∀ i, i < 30 →
          ∃ cs, h.ContainerList (listings log + i) = Except.ok cs ∧ HasK8sPods cs) →
        waitForK8sPods h log = (none, log ++ waitForK8sPods.rounds 30)) := by
  refine ⟨waitForK8sPods_loop_listings h 30 log, hasPods_iff, ?_, ?_⟩
  · intro j hj hall
    exact waitForK8sPods_loop_first h j 30 log hj hall
  · intro hall
    exact waitForK8sPods_loop_always h 30 log hall

/-- C11 at `drainingHost`: pods at the first two listings, none at the third;
three listings, two sleeps, nil. -/
theorem waitForK8sPods_intended_witness :
    waitForK8sPods drainingHost []
      = (none, [Call.ContainerList, Call.Sleep 10, Call.ContainerList, Call.Sleep 10,
                Call.ContainerList]) := by
  have hpods : HasK8sPods [⟨"4f1c", ["/registry"]⟩, ⟨"c0de", ["/k8s_POD_coredns"]⟩] :=
    (hasPods_iff _).1 (by decide)
  have hnone : ¬ HasK8sPods [⟨"4f1c", ["/registry"]⟩] := fun hp =>
    absurd ((hasPods_iff _).2 hp) (by decide)
  have h := ((waitForK8sPods_intended drainingHost []).2.2.1 2 (by decide) (by
      intro i hi
      refine ⟨[⟨"4f1c", ["/registry"]⟩, ⟨"c0de", ["/k8s_POD_coredns"]⟩], ?_, hpods⟩
      have hi2 : i < 2 := hi
      simp [drainingHost, listings, hi2])).1 [⟨"4f1c", ["/registry"]⟩] rfl hnone
  simpa [waitForK8sPods.rounds] using h

end clean

/-! ## The agent: stopping the managed containers -/

namespace clean

theorem stopContainers_loop_ok (h : Host) (containers : List Container) :
    ∀ log : List Call, (∀ c ∈ containers, InspectAndKillSucceed h c) →
      stopContainers.loop h containers log = (none, log ++ stopContainers.calls h containers) := by
  induction containers with
  | nil => intro log _; simp [stopContainers.loop, stopContainers.calls]
  | cons c rest ih =>
    intro log hall
    obtain ⟨config, hins, hkill⟩ := hall c (List.mem_cons_self c rest)
    have hrest : ∀ x ∈ rest, InspectAndKillSucceed h x :=
      fun x hx => hall x (List.mem_cons_of_mem c hx)
    unfold stopContainers.loop
    by_cases hp : strings.HasPrefix config.Image "rancher/" = true
    · simp only [hins, hp, if_true, hkill hp]
      rw [ih _ hrest]
      simp [stopContainers.calls, stopContainers.attempt, hins, hp]
    · simp only [hins, hp, Bool.false_eq_true, if_false]
      rw [ih _ hrest]
      simp [stopContainers.calls, stopContainers.attempt, hins, hp]

theorem stopContainers_calls_append (h : Host) (xs ys : List Container) :
    stopContainers.calls h (xs ++ ys) = stopContainers.calls h xs ++ stopContainers.calls h ys := by
  induction xs with
  | nil => simp [stopContainers.calls]
  | cons x xs ih => simp [stopContainers.calls, ih]

theorem stopContainers_loop_fail (h : Host) (pre : List Container) (c : Container)
    (post : List Container) (err : Error)
    (hfail : h.ContainerInspect c.ID = Except.error err ∨
      ∃ config, h.ContainerInspect c.ID = Except.ok config ∧
        strings.HasPrefix config.Image "rancher/" = true ∧
        h.ContainerKill config.ID "SIGKILL" = some err) :
    ∀ log : List Call, (∀ x ∈ pre, InspectAndKillSucceed h x) →
      stopContainers.loop h (pre ++ c :: post) log
        = (some err, log ++ stopContainers.calls h (pre ++ [c])) := by
  induction pre with
  | nil =>
    intro log _
    rw [List.nil_append, List.nil_append]
    unfold stopContainers.loop
    rcases hfail with hins | ⟨config, hins, hp, hkill⟩
    · simp [hins, stopContainers.calls, stopContainers.attempt]
    · simp [hins, hp, hkill, stopContainers.calls, stopContainers.attempt]
  | cons x pre ih =>
    intro log hall
    obtain ⟨config, hins, hkill⟩ := hall x (List.mem_cons_self x pre)
    have hrest : ∀ y ∈ pre, InspectAndKillSucceed h y :=
      fun y hy => hall y (List.mem_cons_of_mem x hy)
    rw [List.cons_append, List.cons_append]
    unfold stopContainers.loop
    by_cases hp : strings.HasPrefix config.Image "rancher/" = true
    · simp only [hins, hp, if_true, hkill hp]
      rw [ih _ hrest]
      simp [stopContainers.calls, stopContainers.attempt, hins, hp]
    · simp only [hins, hp, Bool.false_eq_true, if_false]
      rw [ih _ hrest]
      simp [stopContainers.calls, stopContainers.attempt, hins, hp]

theorem kills_calls (h : Host) (containers : List Container) :
    kills (stopContainers.calls h containers)
      = (containers.filter (managed h)).map (fun c => (inspectedID h c, "SIGKILL")) := by
  induction containers with
  | nil => simp [stopContainers.calls, kills]
  | cons c rest ih =>
    have happ : kills (stopContainers.calls h (c :: rest))
        = kills (stopContainers.attempt h c) ++ kills (stopContainers.calls h rest) := by
      simp [stopContainers.calls, kills, List.filterMap_append]
    rw [happ, ih]
    cases hins : h.ContainerInspect c.ID with
    | error err => simp [stopContainers.attempt, managed, hins, kills]
    | ok config =>
      by_cases hp : strings.HasPrefix config.Image "rancher/" = true
      · simp [stopContainers.attempt, managed, inspectedID, hins, hp, kills]
      · simp [stopContainers.attempt, managed, hins, hp, kills]

theorem inspections_calls (h : Host) (containers : List Container) :
    inspections (stopContainers.calls h containers) = containers.map (fun c => c.ID) := by
  induction containers with
  | nil => simp [stopContainers.calls, inspections]
  | cons c rest ih =>
    have happ : inspections (stopContainers.calls h (c :: rest))
        = inspections (stopContainers.attempt h c)
          ++ inspections (stopContainers.calls h rest) := by
      simp [stopContainers.calls, inspections, List.filterMap_append]
    rw [happ, ih]
    cases hins : h.ContainerInspect c.ID with
    | error err => simp [stopContainers.attempt, hins, inspections]
    | ok config =>
      by_cases hp : strings.HasPrefix config.Image "rancher/" = true
      · simp [stopContainers.attempt, hins, hp, inspections]
      · simp [stopContainers.attempt, hins, hp, inspections]

theorem kills_append (l1 l2 : List Call) : kills (l1 ++ l2) = kills l1 ++ kills l2 := by
  simp [kills, List.filterMap_append]

theorem inspections_append (l1 l2 : List Call) :
    inspections (l1 ++ l2) = inspections l1 ++ inspections l2 := by
  simp [inspections, List.filterMap_append]

/-- C13: on a listing whose inspections and kills all succeed, `stopContainers`
returns nil, inspects every listed container once, in order, and sends SIGKILL
exactly to the containers whose inspected image starts with "rancher/", each
once, in list order, under the ID the inspection reports; when the inspection or
the kill of a container fails, that error is returned and the calls end with
that container: none after it is inspected or killed. -/
theorem stopContainers_kills_managed (h : Host) (log : List Call)
    (containers : List Container)
    (hlist : h.ContainerList (listings log) = Except.ok containers) :
    ((∀ c ∈ containers, InspectAndKillSucceed h c) →
        stopContainers h log
            = (none, log ++ Call.ContainerList :: stopContainers.calls h containers) ∧
          kills (stopContainers h log).2
            = kills log
              ++ (containers.filter (managed h)).map (fun c => (inspectedID h c, "SIGKILL")) ∧
          inspections (stopContainers h log).2
            = inspections log ++ containers.map (fun c => c.ID)) ∧
      (∀ pre c post err, containers = pre ++ c :: post →
        (∀ x ∈ pre, InspectAndKillSucceed h x) →
        (h.ContainerInspect c.ID = Except.error err ∨
          ∃ config, h.ContainerInspect c.ID = Except.ok config ∧
            strings.HasPrefix config.Image "rancher/" = true ∧
            h.ContainerKill config.ID "SIGKILL" = some err) →
        stopContainers h log
            = (some err, log ++ Call.ContainerList :: stopContainers.calls h (pre ++ [c])) ∧
          kills (stopContainers h log).2
            = kills log
              ++ ((pre ++ [c]).filter (managed h)).map (fun x => (inspectedID h x, "SIGKILL")) ∧
          inspections (stopContainers h log).2
            = inspections log ++ (pre ++ [c]).map (fun x => x.ID)) := by
  have hk : ∀ cs : List Container,
      kills (log ++ Call.ContainerList :: stopContainers.calls h cs)
        = kills log ++ (cs.filter (managed h)).map (fun c => (inspectedID h c, "SIGKILL")) := by
    intro cs
    rw [kills_append, ← kills_calls]
    simp [kills]
  have hi : ∀ cs : List Container,
      inspections (log ++ Call.ContainerList :: stopContainers.calls h cs)
        = inspections log ++ cs.map (fun c => c.ID) := by
    intro cs
    rw [inspections_append, ← inspections_calls h cs]
    simp [inspections]
  constructor
  · intro hall
    have hrun : stopContainers h log
        = (none, log ++ Call.ContainerList :: stopContainers.calls h containers) := by
      unfold stopContainers
      simp only [hlist]
      rw [stopContainers_loop_ok h containers _ hall]
      simp
    rw [hrun]
    exact ⟨rfl, hk containers, hi containers⟩
  · intro pre c post err hsplit hpre hfail
    have hrun : stopContainers h log
        = (some err, log ++ Call.ContainerList :: stopContainers.calls h (pre ++ [c])) := by
      unfold stopContainers
      simp only [hlist, hsplit]
      rw [stopContainers_loop_fail h pre c post err hfail _ hpre]
      simp
    rw [hrun]
    exact ⟨rfl, hk (pre ++ [c]), hi (pre ++ [c])⟩

/-- C13 at `managedHost`, where the two managed containers around the registry
are killed, and at `brokenInspectHost`, where the failed inspection of the
registry ends the run before the third container. -/
theorem stopContainers_kills_managed_witness :
    stopContainers managedHost []
        = (none, [Call.ContainerList, Call.ContainerInspect "a1",
                  Call.ContainerKill "a1" "SIGKILL", Call.ContainerInspect "4f1c",
                  Call.ContainerInspect "b2", Call.ContainerKill "b2" "SIGKILL"]) ∧
      kills (stopContainers managedHost []).2 = [("a1", "SIGKILL"), ("b2", "SIGKILL")] ∧
      stopContainers brokenInspectHost []
        = (some ⟨"No such container: 4f1c", false⟩,
            [Call.ContainerList, Call.ContainerInspect "a1", Call.ContainerKill "a1" "SIGKILL",
             Call.ContainerInspect "4f1c"]) := by
  have hok := (stopContainers_kills_managed managedHost []
    [⟨"a1", ["/kubelet"]⟩, ⟨"4f1c", ["/registry"]⟩, ⟨"b2", ["/kube-proxy"]⟩] rfl).1 (by
      intro c hc
      simp only [List.mem_cons, List.mem_singleton, List.not_mem_nil, or_false] at hc
      rcases hc with rfl | rfl | rfl
      · exact ⟨⟨"a1", "rancher/hyperkube:v1.18.6"⟩, rfl, fun _ => rfl⟩
      · exact ⟨⟨"4f1c", "registry:2"⟩, rfl, fun _ => rfl⟩
      · exact ⟨⟨"b2", "rancher/hyperkube:v1.18.6"⟩, rfl, fun _ => rfl⟩)
  have hfail := (stopContainers_kills_managed brokenInspectHost []
    [⟨"a1", ["/kubelet"]⟩, ⟨"4f1c", ["/registry"]⟩, ⟨"b2", ["/kube-proxy"]⟩] rfl).2
      [⟨"a1", ["/kubelet"]⟩] ⟨"4f1c", ["/registry"]⟩ [⟨"b2", ["/kube-proxy"]⟩]
      ⟨"No such container: 4f1c", false⟩ rfl (by
        intro x hx
        simp only [List.mem_singleton] at hx
        subst hx
        exact ⟨⟨"a1", "rancher/hyperkube:v1.18.6"⟩, rfl, fun _ => rfl⟩)
      (Or.inl rfl)
  refine ⟨?_, ?_, ?_⟩
  · rw [hok.1]
    rfl
  · rw [hok.2.1]
    decide
  · rw [hfail.1]
    rfl

end clean
